import Mathlib

/-!
# Verification of the transactions-dashboard statement extraction pipeline

Shallow embedding of the core extraction/reconciliation pipeline of the
`transactions-dashboard` repository:

* `src/utils/classification.ts` (merchant classifier),
* `src/app/api/upload-pdf/route.ts` (statement-period calculator, the four
  format parsers, the dispatcher, reconciliation and persistence flow),
* `src/app/api/upload-json/route.ts` (bulk re-import normalization).

Conventions of the embedding:

* JavaScript numbers are modelled as `ℚ` (all numeric values occurring in the
  pipeline are decimal fractions; `NaN`/`Infinity` outcomes are modelled with
  `Option ℚ`, `none` standing for a non-finite result, matching the code's
  `Number.isFinite` guards).
* JavaScript strings are Lean `String`s; the `\s` character class is modelled
  by the ASCII whitespace characters (space, tab, CR, LF), and `toLowerCase`
  by ASCII lowering — all strings handled by the pipeline are ASCII.
* The anchored regular expressions of the parsers are hand-compiled to
  deterministic character-list matchers.  Each matcher is documented with the
  regex it implements, including JS backtracking behaviour where observable.
-/

namespace TransactionsDashboard

/-! ## Basic string helpers -/

/-- ASCII model of the JS `\s` character class. -/
def isWs (c : Char) : Bool :=
  c = ' ' || c = '\t' || c = '\n' || c = '\r'

/-- Drop leading whitespace from a character list. -/
def dropWsL (cs : List Char) : List Char := cs.dropWhile isWs

/-- JS `String.prototype.trim` (ASCII whitespace). -/
def trimStr (s : String) : String :=
  ⟨((s.toList.dropWhile isWs).reverse.dropWhile isWs).reverse⟩

/-- JS `String.prototype.toLowerCase` (ASCII). -/
def lowerStr (s : String) : String := ⟨s.toList.map Char.toLower⟩

/-- Contiguous-sublist test on character lists. -/
def isInfixOfL (needle : List Char) : List Char → Bool
  | [] => needle.isEmpty
  | c :: rest => needle.isPrefixOf (c :: rest) || isInfixOfL needle rest

/-- JS `haystack.includes(needle)` (substring containment). -/
def strIncludes (haystack needle : String) : Bool :=
  isInfixOfL needle.toList haystack.toList

/-- JS `s.startsWith(p)`. -/
def strStartsWith (s p : String) : Bool :=
  p.toList.isPrefixOf s.toList

/-- `List.replicate`-based left padding of a string to width `w` with `c`. -/
def padLeftStr (s : String) (c : Char) (w : Nat) : String :=
  ⟨List.replicate (w - s.length) c ++ s.toList⟩

/-- JS `s.padStart(2, '0')`. -/
def padStart2 (s : String) : String := padLeftStr s '0' 2

/-- Two-digit zero-padded decimal rendering of a `Nat`. -/
def pad2 (n : Nat) : String := padStart2 (toString n)

/-- JS `s.slice(-2)`: the last two characters (the whole string if shorter). -/
def sliceLast2 (s : String) : String :=
  ⟨s.toList.drop (s.length - 2)⟩

/-- Character-level digit test, as the JS `\d` class. -/
def isDig (c : Char) : Bool := c.isDigit

/-- JS `s.split(sep)` for a single-character separator. -/
def splitOnCharL (sep : Char) : List Char → List (List Char)
  | [] => [[]]
  | c :: rest =>
    let r := splitOnCharL sep rest
    if c = sep then [] :: r
    else
      match r with
      | seg :: segs => (c :: seg) :: segs
      | [] => [[c]]

def strSplitOnChar (sep : Char) (s : String) : List String :=
  (splitOnCharL sep s.toList).map (fun l => ⟨l⟩)

/-- Numeric value of a list of decimal digit characters. -/
def digitsToNat (cs : List Char) : Nat :=
  cs.foldl (fun acc c => acc * 10 + (c.toNat - 48)) 0

/-! ## `parseFloat`

`parseFloatLite` models JS `parseFloat` on the strings that reach it in this
code base: an optional leading `-` sign, then the longest prefix of the form
`digits[.digits]`; `none` models a `NaN` result (no parsable prefix).  The
inputs in the pipeline contain only digits, `,` (always removed first by the
callers), `.` and `-`, for which this is exactly `parseFloat`. -/

def parseFloatCore (cs : List Char) : Option ℚ :=
  let intPart := cs.takeWhile isDig
  let rest := cs.dropWhile isDig
  match rest with
  | '.' :: tl =>
      let fracPart := tl.takeWhile isDig
      if intPart.isEmpty && fracPart.isEmpty then none
      else some ((digitsToNat intPart : ℚ) +
        (digitsToNat fracPart : ℚ) / (10 : ℚ) ^ fracPart.length)
  | _ =>
      if intPart.isEmpty then none
      else some (digitsToNat intPart : ℚ)

def parseFloatLite (s : String) : Option ℚ :=
  match s.toList with
  | '-' :: tl => (parseFloatCore tl).map (fun q => -q)
  | cs => parseFloatCore cs

/-- JS `s.replace(/,/g, '')`. -/
def stripCommas (s : String) : String := ⟨s.toList.filter (· ≠ ',')⟩

/-! ## Merchant classifier — `src/utils/classification.ts` -/

structure Classification where
  category : String
  subcategory : String
deriving DecidableEq, Repr

structure CategoryRule where
  category : String
  subcategory : String
  keywords : List String
deriving DecidableEq, Repr

structure PaypalOverride where
  matchStr : String  -- the source field is named `match`, a Lean keyword
  category : String
  subcategory : String
deriving DecidableEq, Repr

def CATEGORY_RULES : List CategoryRule := [
  ⟨"Transport", "Public Transport", ["public transport", "at hop", "athop", "bus ", "train", "ferry"]⟩,
  ⟨"Transport", "Rideshare", ["uber", "ola", "didi", "lyft"]⟩,
  ⟨"Transport", "Micromobility", ["lime", "beam", "neuron"]⟩,
  ⟨"Car", "Fuel & Charging", ["petrol", "gasoline", "gas station", "bp", "z energy", "caltex", "mobil", "gull", "fuel "]⟩,
  ⟨"Car", "Services & Maintenance", ["aa battery", "aa service", "aa centre", "aa smartfuel", "aa roadside", "aa nz", "aa mount wellington"]⟩,
  ⟨"Groceries", "Supermarkets", ["woolworths", "pak n save", "paksave", "new world", "countdown", "farro", "supermarket"]⟩,
  ⟨"Groceries", "Alcohol & Beverage", ["liquorland", "super liquor", "liquor ", "bottle o", "birkenhead liquor"]⟩,
  ⟨"Groceries", "Specialty Food", ["butcher", "bakery", "deli", "organics", "wholefoods", "pachamama latino store", "daiso japan", "3 japan"]⟩,
  ⟨"Dining", "Cafes", ["coffee", "cafe", "espresso", "starbucks"]⟩,
  ⟨"Dining", "Fast Food", ["mcdonald", "kfc", "burger king", "subway", "domino", "pizza hut", "hungry jacks"]⟩,
  ⟨"Dining", "Dining Out", ["restaurant", "bistro", "dining", "cuisine", "grill", "izakaya", "eatery", "fat badgers pizza", "pizza bar"]⟩,
  ⟨"Entertainment", "Streaming", ["netflix", "spotify", "disney", "apple music", "youtube", "paramount", "hbo", "amazon prime"]⟩,
  ⟨"Entertainment", "Gaming", ["playstation", "steam", "nintendo", "xbox", "game pass", "gaming"]⟩,
  ⟨"Entertainment", "Movies & Events", ["event cinema", "cinemas", "movies", "theatre"]⟩,
  ⟨"Subscriptions & Services", "Software & Cloud", ["openai", "claude", "cursor", "expressvpn", "cloudflare", "apple.com", "applecom", "icloud", "itunes", "microsoft", "google", "adobe", "github"]⟩,
  ⟨"Subscriptions & Services", "Mobile Phone", ["skinny mobile", "vodafone", "spark mobile"]⟩,
  ⟨"Subscriptions & Services", "Memberships", ["uber one membership", "uber one"]⟩,
  ⟨"Shopping", "Retail & Home", ["kmart", "warehouse", "briscoes", "bunnings", "mitre 10", "ikea", "noel leeming", "harvey norman", "jb hi fi", "mighty ape"]⟩,
  ⟨"Shopping", "Apparel", ["farmer", "fashion", "adidas", "puma", "nike", "seed heritage", "hallenstein", "glassons"]⟩,
  ⟨"Health", "Pharmacy & Health", ["chemist", "pharmacy", "unimeds", "medical", "clinic"]⟩,
  ⟨"Travel", "Accommodation", ["hotel", "airbnb", "accor", "hilton", "marriott", "motel", "resort", "booking.com", "booking"]⟩,
  ⟨"Travel", "Flights", ["air new zealand", "jetstar", "qantas", "airline", "flight"]⟩,
  ⟨"Hobbies", "Learning & Classes", ["language lesson", "music lesson", "art class"]⟩]

def PAYPAL_OVERRIDES : List PaypalOverride := [
  ⟨"laucolla", "Other", "Counselling"⟩,
  ⟨"mariano", "Hobbies", "Learning & Classes"⟩,
  ⟨"mighty ape", "Shopping", "Retail & Home"⟩,
  ⟨"booking", "Travel", "Accommodation"⟩,
  ⟨"cloudflare", "Subscriptions & Services", "Software & Cloud"⟩]

/-- Collapse each whitespace run to a single space (`replace(/\s+/g, ' ')`).
The `prevWs` flag records whether the previous character was whitespace. -/
def squashWsAux : Bool → List Char → List Char
  | _, [] => []
  | prevWs, c :: rest =>
      if isWs c then
        if prevWs then squashWsAux true rest else ' ' :: squashWsAux true rest
      else c :: squashWsAux false rest

/-- `const normalize = (value = '') => value.toLowerCase().replace(/\s+/g, ' ').trim();` -/
def normalize (value : String) : String :=
  trimStr ⟨squashWsAux false ((lowerStr value).toList)⟩

/-- `const collapse = (value = '') => value.replace(/[^a-z0-9]/g, '');` -/
def collapse (value : String) : String :=
  ⟨value.toList.filter (fun c => ('a' ≤ c && c ≤ 'z') || ('0' ≤ c && c ≤ '9'))⟩

structure ProcessedRule where
  category : String
  subcategory : String
  normalizedKeywords : List String
  collapsedKeywords : List String
deriving DecidableEq, Repr

def PROCESSED_RULES : List ProcessedRule :=
  CATEGORY_RULES.map fun r =>
    ⟨r.category, r.subcategory,
      r.keywords.map normalize,
      r.keywords.map (fun k => collapse (normalize k))⟩

/-- `matchRules(normalizedValue, collapsedValue)`: first rule whose keyword
matches; a keyword participates only if non-empty (JS truthiness of
`keyword && ...`). -/
def matchRules (normalizedValue collapsedValue : String) : Option Classification :=
  PROCESSED_RULES.findSome? fun rule =>
    let keywordMatch := rule.normalizedKeywords.any fun k =>
      !(k = "") && strIncludes normalizedValue k
    let collapsedMatch := !keywordMatch && rule.collapsedKeywords.any fun k =>
      !(k = "") && strIncludes collapsedValue k
    if keywordMatch || collapsedMatch then
      some ⟨rule.category, rule.subcategory⟩
    else none

/-- `place.replace(/^paypal\s*\*/, '')` — case-sensitive removal of a literal
`paypal`, optional whitespace, and a `*`, from the raw (un-normalized) place. -/
def stripPaypalPrefix (place : String) : String :=
  match (("paypal".toList).isPrefixOf place.toList : Bool) with
  | false => place
  | true =>
      match dropWsL (place.toList.drop 6) with
      | '*' :: rest => ⟨rest⟩
      | _ => place

/-- `categorizeMerchant` from `src/utils/classification.ts`. -/
def categorizeMerchant (place : String) : Classification :=
  let normalizedPlace := normalize place
  let collapsedPlace := collapse normalizedPlace
  match matchRules normalizedPlace collapsedPlace with
  | some c => c
  | none =>
    if strStartsWith normalizedPlace "paypal" then
      let paypalName := normalize (stripPaypalPrefix place)
      let collapsedPaypalName := collapse paypalName
      match PAYPAL_OVERRIDES.find? (fun e => strIncludes collapsedPaypalName (collapse e.matchStr)) with
      | some o => ⟨o.category, o.subcategory⟩
      | none =>
        match matchRules paypalName collapsedPaypalName with
        | some c => c
        | none => ⟨"Other", "General"⟩
    else ⟨"Other", "General"⟩

/-! ## Statement period calculator — `computeStatementMetadata`

The source (identical in `upload-pdf/route.ts` and `upload-json/route.ts`)
parses the input via `new Date(dateIso + "T00:00:00Z")`.  For ISO-format
strings, the JS engine accepts exactly the `YYYY-MM-DD` shapes whose
components form a real calendar date and yields `Invalid Date` (`NaN`)
otherwise; `parseIsoDate` embeds that acceptance check.  Strings produced by
the pipeline are either of this exact shape or contain non-digit characters
(rejected by both the engine and `parseIsoDate`). -/

structure YMD where
  year : Int
  month : Nat  -- 1..12
  day : Nat    -- 1..daysInMonth
deriving DecidableEq, Repr

def isLeapYear (y : Int) : Bool :=
  y % 4 = 0 && (y % 100 ≠ 0 || y % 400 = 0)

def daysInMonth (y : Int) (m : Nat) : Nat :=
  if m = 2 then (if isLeapYear y then 29 else 28)
  else if m = 4 || m = 6 || m = 9 || m = 11 then 30
  else 31

/-- Acceptance of `YYYY-MM-DD` by the JS `Date` ISO parser, as a parse. -/
def parseIsoDate (s : String) : Option YMD :=
  match s.toList with
  | [y1, y2, y3, y4, '-', m1, m2, '-', d1, d2] =>
      if isDig y1 && isDig y2 && isDig y3 && isDig y4 &&
         isDig m1 && isDig m2 && isDig d1 && isDig d2 then
        let y : Int := digitsToNat [y1, y2, y3, y4]
        let m := digitsToNat [m1, m2]
        let d := digitsToNat [d1, d2]
        if 1 ≤ m && m ≤ 12 && 1 ≤ d && d ≤ daysInMonth y m then
          some ⟨y, m, d⟩
        else none
      else none
  | _ => none

/-- The date part of `Date.prototype.toISOString` (`toIso` in the source):
four-digit years for 0..9999, otherwise a sign and six digits. -/
def isoYearStr (y : Int) : String :=
  if 0 ≤ y && y ≤ 9999 then padLeftStr (toString y.toNat) '0' 4
  else if y < 0 then "-" ++ padLeftStr (toString (-y).toNat) '0' 6
  else "+" ++ padLeftStr (toString y.toNat) '0' 6

/-- `toIso(new Date(Date.UTC(year, month0, day)))` for in-range days
(`month0` is the JS 0-based month). -/
def isoOfUTC (year : Int) (month0 : Int) (day : Nat) : String :=
  isoYearStr year ++ "-" ++ pad2 (month0 + 1).toNat ++ "-" ++ pad2 day

structure StatementMeta where
  statement_id : Option String
  statement_start : Option String
  statement_end : Option String
deriving DecidableEq, Repr

def nullStatementMeta : StatementMeta := ⟨none, none, none⟩

/-- The arithmetic core of `computeStatementMetadata` on a parsed date
(lines 56–85 of `upload-pdf/route.ts`); months are 0-based as in JS. -/
def statementMetaOf (d : YMD) : StatementMeta :=
  let closingPair : Int × Int :=
    if d.day > 26 then
      (if (d.month : Int) - 1 + 1 > 11 then (0, d.year + 1)
       else ((d.month : Int) - 1 + 1, d.year))
    else ((d.month : Int) - 1, d.year)
  let closingMonth := closingPair.1
  let closingYear := closingPair.2
  let openingPair : Int × Int :=
    if closingMonth - 1 < 0 then (11, closingYear - 1)
    else (closingMonth - 1, closingYear)
  { statement_id := some (isoOfUTC closingYear closingMonth 26)
    statement_start := some (isoOfUTC openingPair.2 openingPair.1 27)
    statement_end := some (isoOfUTC closingYear closingMonth 26) }

/-- `computeStatementMetadata(dateIso)`: all-null for an empty or unparseable
input, otherwise the 27th→26th cycle around the date. -/
def computeStatementMetadata (dateIso : String) : StatementMeta :=
  if dateIso = "" then nullStatementMeta
  else
    match parseIsoDate dateIso with
    | none => nullStatementMeta
    | some d => statementMetaOf d

/-! ## Transaction records and the transaction builder -/

structure Transaction where
  id : Option ℚ := none
  place : String
  amount : String
  date : String
  currency : String
  value : ℚ
  date_iso : String
  category : String
  subcategory : String
  statement_id : Option String
  statement_start : Option String
  statement_end : Option String
deriving DecidableEq, Repr

/-- `value.toFixed(2)`: decimal rounding to cents, ties toward `+∞`
(the JS `toFixed` tie rule); exact for the 2-decimal values produced by the
parsers. -/
def formatFixed2 (q : ℚ) : String :=
  let cents : Int := (q * 100 + 1 / 2).floor
  let a := cents.natAbs
  (if cents < 0 then "-" else "") ++ toString (a / 100) ++ "." ++ pad2 (a % 100)

/-- `createTransaction(dateStr, description, value, date_iso)` from
`upload-pdf/route.ts` (the `dateStr` argument is unused by the source too). -/
def createTransaction (dateStr : String) (description : String) (value : ℚ)
    (date_iso : String) : Transaction :=
  let place := description
  let c := categorizeMerchant place
  let meta := computeStatementMetadata date_iso
  { id := none
    place := place
    amount := "$" ++ formatFixed2 value
    date := date_iso
    currency := "NZD"
    value := value
    date_iso := date_iso
    category := c.category
    subcategory := c.subcategory
    statement_id := meta.statement_id
    statement_start := meta.statement_start
    statement_end := meta.statement_end }

/-- `parseDate(dateStr)`: `DD.MM.YY → 20YY-MM-DD`, purely syntactic. -/
def parseDate (dateStr : String) : String :=
  let parts := strSplitOnChar '.' dateStr
  let day := parts.getD 0 ""
  let month := parts.getD 1 ""
  let year := parts.getD 2 ""
  "20" ++ year ++ "-" ++ padStart2 month ++ "-" ++ padStart2 day

/-! ## Hand-compiled anchored pattern matchers

Each matcher implements the anchored JS regex named in its comment,
deterministically.  For the lazy `(.+?)\s+(amount)$` tails, JS picks the
longest leading whitespace run and then the earliest description end for
which the remainder matches; when the region between date and amount is
whitespace-only, backtracking yields a single-whitespace description
(possible only for runs of ≥ `2·minWs + 1` characters).  `lazySplitDescAmount`
reproduces exactly that choice. -/

/-- Full match of `[\d,]+\.\d{2}` (the strict Amex amount / `amountPattern`). -/
def amexAmountFull (cs : List Char) : Bool :=
  let pre := cs.takeWhile (· ≠ '.')
  match cs.dropWhile (· ≠ '.') with
  | ['.', d1, d2] =>
      !pre.isEmpty && pre.all (fun c => isDig c || c = ',') && isDig d1 && isDig d2
  | _ => false

/-- Full match of `[\d,]+\.?\d{0,2}` (the loose amount core of the other
parsers). -/
def looseAmountCore (cs : List Char) : Bool :=
  let pre := cs.takeWhile (fun c => isDig c || c = ',')
  let rest := cs.dropWhile (fun c => isDig c || c = ',')
  !pre.isEmpty &&
    (match rest with
     | [] => true
     | '.' :: tl => tl.length ≤ 2 && tl.all isDig
     | _ => false)

/-- Full match of `[\$\£\€]?[\d,]+\.?\d{0,2}`. -/
def stdAmountFull (cs : List Char) : Bool :=
  match cs with
  | [] => false
  | c :: tl =>
      if c = '$' || c = '£' || c = '€' then looseAmountCore tl
      else looseAmountCore (c :: tl)

/-- Full match of `(NZ\$|[\$])?[\d,]+\.?\d{0,2}` (currency prefix included in
the scanned region; the NZ parser strips it off again, as the source captures
it in a separate group). -/
def nzAmountFull (cs : List Char) : Bool :=
  match cs with
  | 'N' :: 'Z' :: '$' :: tl => looseAmountCore tl
  | '$' :: tl => looseAmountCore tl
  | _ => looseAmountCore cs

/-- Strip the `NZ$`/`$` currency prefix (the source's separate capture group). -/
def nzStripCurrency (s : String) : String :=
  match s.toList with
  | 'N' :: 'Z' :: '$' :: tl => ⟨tl⟩
  | '$' :: tl => ⟨tl⟩
  | _ => s

/-- The `\s+(.+?)\s{minWs,}(amount)$` tail: `T` is the text after the date
part.  Returns `(description, amount)` of the JS match, `none` if the regex
does not match. -/
def lazySplitDescAmount (T : List Char) (minWs : Nat) (amountP : List Char → Bool) :
    Option (List Char × List Char) :=
  let W := (T.takeWhile isWs).length
  if W < minWs then none
  else
    match (List.range' (W + 1) (T.length - (W + 1))).findSome? (fun p =>
      let run := ((T.drop p).takeWhile isWs).length
      if minWs ≤ run && amountP (T.drop (p + run)) then
        some ((T.drop W).take (p - W), T.drop (p + run))
      else none) with
    | some r => some r
    | none =>
      if 2 * minWs + 1 ≤ W && amountP (T.drop W) then
        some ([T.getD (W - minWs - 1) ' '], T.drop W)
      else none

/-- Exactly two digits. -/
def parse2D : List Char → Option (String × List Char)
  | a :: b :: rest => if isDig a && isDig b then some (⟨[a, b]⟩, rest) else none
  | _ => none

/-- `\s*\.\s*`. -/
def parseDotSep (cs : List Char) : Option (List Char) :=
  match dropWsL cs with
  | '.' :: rest => some (dropWsL rest)
  | _ => none

/-- The common Amex date head `^(\d{2})\s*\.\s*(\d{2})\s*\.\s*(\d{2})`. -/
def parseAmexDatePrefix (cs : List Char) : Option (String × String × String × List Char) :=
  match parse2D cs with
  | none => none
  | some (day, r1) =>
    match parseDotSep r1 with
    | none => none
    | some r2 =>
      match parse2D r2 with
      | none => none
      | some (month, r3) =>
        match parseDotSep r3 with
        | none => none
        | some r4 =>
          match parse2D r4 with
          | none => none
          | some (year, r5) => some (day, month, year, r5)

/-- `transactionWithAmountPattern`:
`^(\d{2})\s*\.\s*(\d{2})\s*\.\s*(\d{2})\s+(.+?)\s+([\d,]+\.\d{2})$`. -/
def parseAmexDirectLine (line : String) :
    Option (String × String × String × String × String) :=
  match parseAmexDatePrefix line.toList with
  | none => none
  | some (day, month, year, rest) =>
    match lazySplitDescAmount rest 1 amexAmountFull with
    | none => none
    | some (desc, amtTail) => some (day, month, year, ⟨desc⟩, ⟨amtTail⟩)

/-- `transactionPattern`: `^(\d{2})\s*\.\s*(\d{2})\s*\.\s*(\d{2})\s+(.+)$`
(greedy description; a whitespace-only tail of ≥ 2 characters backtracks into
a single-whitespace description). -/
def parseAmexTransLine (line : String) : Option (String × String × String × String) :=
  match parseAmexDatePrefix line.toList with
  | none => none
  | some (day, month, year, rest) =>
    let W := (rest.takeWhile isWs).length
    let tail := rest.dropWhile isWs
    if W = 0 then none
    else if tail.isEmpty then
      if 2 ≤ W then some (day, month, year, ⟨[rest.getD (W - 1) ' ']⟩) else none
    else some (day, month, year, ⟨tail⟩)

/-- `\d{1,2}` followed by a separator accepted by `sepP` (greedy with the JS
backtracking: two digits are taken only when the separator follows). -/
def parseSep1or2Digits (sepP : Char → Bool) : List Char → Option (String × List Char)
  | a :: b :: c :: rest =>
      if isDig a then
        if isDig b then
          if sepP c then some (⟨[a, b]⟩, rest) else none
        else if sepP b then some (⟨[a]⟩, c :: rest) else none
      else none
  | [a, b] => if isDig a && sepP b then some (⟨[a]⟩, []) else none
  | _ => none

/-- Exactly four digits. -/
def parse4Digits (cs : List Char) : Option (String × List Char) :=
  let ds := cs.take 4
  if ds.length = 4 && ds.all isDig then some (⟨ds⟩, cs.drop 4) else none

/-- `\d{1,2}` immediately before the trailing `\s+…` region (no lookahead
needed: the following `lazySplitDescAmount` enforces the whitespace). -/
def parse1or2Digits (cs : List Char) : Option (String × List Char) :=
  let ds := cs.takeWhile isDig
  if ds.length = 1 || ds.length = 2 then some (⟨ds⟩, cs.drop ds.length) else none

def isSlashDash (c : Char) : Bool := c = '/' || c = '-'

/-! ## `parseFloat` call sites' character filters -/

/-- `s.replace(/[\$\£\€,]/g, '')`. -/
def stripCurrencyCommas (s : String) : String :=
  ⟨s.toList.filter (fun c => !(c = '$' || c = '£' || c = '€' || c = ','))⟩

/-! ## Amex parser — `parseAmexFormat` -/

structure TransRaw where
  date : String
  description : String
  index : Nat
deriving DecidableEq, Repr

structure AmountRaw where
  value : ℚ
  index : Nat
deriving DecidableEq, Repr

structure DirectRaw where
  date : String
  description : String
  value : ℚ
deriving DecidableEq, Repr

/-- Case-insensitive literal prefix (ASCII). -/
def ciPrefixDrop : List Char → List Char → Option (List Char)
  | [], rest => some rest
  | _, [] => none
  | p :: ps, c :: rest =>
      if c.toLower = p.toLower then ciPrefixDrop ps rest else none

/-- `\s+`: at least one whitespace character, consumed maximally. -/
def wsPlusDrop (cs : List Char) : Option (List Char) :=
  match cs with
  | c :: rest => if isWs c then some (dropWsL rest) else none
  | [] => none

/-- Attempt `Minimum\s+Payment\s+\$?\s*([\d,]+\.?\d{0,2})` (case-insensitive)
at this exact position; returns the captured amount string. -/
def minPayAt (cs : List Char) : Option String :=
  match ciPrefixDrop "minimum".toList cs with
  | none => none
  | some r1 =>
    match wsPlusDrop r1 with
    | none => none
    | some r2 =>
      match ciPrefixDrop "payment".toList r2 with
      | none => none
      | some r3 =>
        match wsPlusDrop r3 with
        | none => none
        | some r4 =>
          let r5 := match r4 with
            | '$' :: t => dropWsL t
            | _ => r4
          let digs := r5.takeWhile (fun c => isDig c || c = ',')
          if digs.isEmpty then none
          else
            match r5.drop digs.length with
            | '.' :: t => some ⟨digs ++ '.' :: (t.takeWhile isDig).take 2⟩
            | _ => some ⟨digs⟩

/-- Leftmost match of the minimum-payment pattern in a line. -/
def findMinPayInLine (line : String) : Option String :=
  let rec scan : List Char → Option String
    | [] => none
    | c :: rest =>
      match minPayAt (c :: rest) with
      | some s => some s
      | none => scan rest
  scan line.toList

/-- Header scan of `parseAmexFormat` (first 50 lines; first match wins).  A
captured amount that parses to `NaN` is collapsed to `none`: the source keeps
`NaN`, for which the later `|value − min| < 0.01` filter is equally
inoperative. -/
def amexScanMinPayment (lines : List String) : Option ℚ :=
  ((lines.take 50).findSome? findMinPayInLine).bind
    (fun s => parseFloatLite (stripCommas s))

structure AmexPools where
  directTransactions : List DirectRaw
  transactionsRaw : List TransRaw
  amountsRaw : List AmountRaw
deriving DecidableEq, Repr

/-- One iteration of the first-pass collection loop of `parseAmexFormat`
(lines 167–264 of `upload-pdf/route.ts`).  The source also computes an unused
`detailedSectionStart` variable (lines 150–164), omitted here. -/
def amexCollectStep (lines : List String) (minPay : Option ℚ)
    (acc : AmexPools) (i : Nat) : AmexPools :=
  let line := lines.getD i ""
  match parseAmexDirectLine line with
  | some (day, month, year, descriptionRaw, amountRaw) =>
      let dateStr := day ++ "." ++ month ++ "." ++ year
      if strIncludes descriptionRaw "PAYMENT - THANK YOU" ||
         strIncludes descriptionRaw "Total of New Transactions" then acc
      else
        match parseFloatLite (stripCommas amountRaw) with
        | none => acc
        | some value =>
            if value ≤ 0 ∨ 50000 ≤ value then acc
            else { acc with directTransactions :=
                     acc.directTransactions ++ [⟨dateStr, trimStr descriptionRaw, value⟩] }
  | none =>
    match parseAmexTransLine line with
    | some (day, month, year, description) =>
        let dateStr := day ++ "." ++ month ++ "." ++ year
        if i < 50 then acc
        else if strIncludes description "PAYMENT - THANK YOU" ||
                strIncludes description "Total of New Transactions" then acc
        else { acc with transactionsRaw :=
                 acc.transactionsRaw ++ [⟨dateStr, trimStr description, i⟩] }
    | none =>
        if amexAmountFull line.toList then
          if i < 50 then acc
          else
            let nextLine := if i + 1 < lines.length then lines.getD (i + 1) "" else ""
            let prevLine := if 0 < i then lines.getD (i - 1) "" else ""
            if strIncludes line "CR" || strIncludes line "%" || nextLine = "CR" then acc
            else if strIncludes prevLine "Minimum Payment" ||
                    strIncludes prevLine "Credit Limit" ||
                    strIncludes prevLine "Due by" ||
                    strIncludes line "Minimum Payment" then acc
            else
              let prev2Line := if 1 < i then lines.getD (i - 2) "" else ""
              let prev3Line := if 2 < i then lines.getD (i - 3) "" else ""
              if strIncludes prev2Line "Minimum Payment" ||
                 strIncludes prev3Line "Minimum Payment" then acc
              else
                match parseFloatLite (stripCommas line) with
                | none => acc
                | some value =>
                    if value ≤ 0 ∨ 50000 ≤ value then acc
                    else
                      match minPay with
                      | some minimumPaymentAmount =>
                          if |value - minimumPaymentAmount| < 1 / 100 then acc
                          else { acc with amountsRaw := acc.amountsRaw ++ [⟨value, i⟩] }
                      | none => { acc with amountsRaw := acc.amountsRaw ++ [⟨value, i⟩] }
        else acc

/-- The collection pass of `parseAmexFormat`. -/
def amexCollect (lines : List String) : AmexPools :=
  (List.range lines.length).foldl
    (amexCollectStep lines (amexScanMinPayment lines)) ⟨[], [], []⟩

/-- First pass of `findClosestAmount`: nearest unused amount strictly within
5 lines after the transaction (`best` carries `(listPosition, diff)`). -/
def fcaPass1 (transactionIndex : Nat) (amountsRaw : List AmountRaw)
    (usedAmounts : List Nat) : Option (Nat × Int) :=
  amountsRaw.enum.foldl (fun best p =>
    if p.1 ∈ usedAmounts then best
    else
      let diff : Int := (p.2.index : Int) - transactionIndex
      match best with
      | none => if 0 < diff ∧ diff ≤ 5 then some (p.1, diff) else none
      | some b => if 0 < diff ∧ diff ≤ 5 ∧ diff < b.2 then some (p.1, diff) else some b)
    none

/-- Second pass: nearest unused amount strictly within 30 lines before. -/
def fcaPass2 (transactionIndex : Nat) (amountsRaw : List AmountRaw)
    (usedAmounts : List Nat) : Option (Nat × Int) :=
  amountsRaw.enum.foldl (fun best p =>
    if p.1 ∈ usedAmounts then best
    else
      let diff : Int := (transactionIndex : Int) - p.2.index
      match best with
      | none => if 0 < diff ∧ diff ≤ 30 then some (p.1, diff) else none
      | some b => if 0 < diff ∧ diff ≤ 30 ∧ diff < b.2 then some (p.1, diff) else some b)
    none

/-- Third pass: first unused amount on the exact same line. -/
def fcaPass3 (transactionIndex : Nat) (amountsRaw : List AmountRaw)
    (usedAmounts : List Nat) : Option Nat :=
  amountsRaw.enum.findSome? fun p =>
    if p.1 ∉ usedAmounts ∧ p.2.index = transactionIndex then some p.1 else none

/-- `findClosestAmount` (lines 460–504): the list position of the chosen
amount candidate; the caller records it as used. -/
def findClosestAmount (transactionIndex : Nat) (amountsRaw : List AmountRaw)
    (usedAmounts : List Nat) : Option Nat :=
  match fcaPass1 transactionIndex amountsRaw usedAmounts with
  | some b => some b.1
  | none =>
    match fcaPass2 transactionIndex amountsRaw usedAmounts with
    | some b => some b.1
    | none => fcaPass3 transactionIndex amountsRaw usedAmounts

/-- Sequential-offset search: first amount candidate whose source line is
within 30 lines of the first transaction line (`startOffset` stays 0 when
none qualifies). -/
def firstAmountWithin30 (firstTransIdx : Nat) (amountsRaw : List AmountRaw) : Nat :=
  (amountsRaw.findIdx? fun a =>
    decide (((a.index : Int) - firstTransIdx).natAbs ≤ 30)).getD 0

/-- The `startOffset` computation (lines 296–303): only when amounts
outnumber transactions. -/
def amexStartOffset (tRaw : List TransRaw) (aRaw : List AmountRaw) : Nat :=
  if tRaw.length < aRaw.length then
    match tRaw with
    | [] => 0
    | t0 :: _ => firstAmountWithin30 t0.index aRaw
  else 0

/-- The sequential-matching loop (lines 304–314), as `(transaction, amount
list position)` pairs; the `break` at `amountIdx ≥ amountsRaw.length` is the
filter below (the index grows monotonically with `i`). -/
def amexSeqPairs (tRaw : List TransRaw) (aRaw : List AmountRaw) : List (TransRaw × Nat) :=
  let minCount := min tRaw.length aRaw.length
  let startOffset := amexStartOffset tRaw aRaw
  (List.range minCount).filterMap fun i =>
    if startOffset + i < aRaw.length then
      (tRaw.get? i).map fun t => (t, startOffset + i)
    else none

/-- The proximity-matching loop (lines 324–334): fold with the mutable
`usedAmounts` set threaded through. -/
def amexProxStep (aRaw : List AmountRaw) (st : List Nat × List (TransRaw × Nat))
    (t : TransRaw) : List Nat × List (TransRaw × Nat) :=
  match findClosestAmount t.index aRaw st.1 with
  | none => st
  | some j => (j :: st.1, st.2 ++ [(t, j)])

def amexProxPairs (initUsed : List Nat) (tRaw : List TransRaw)
    (aRaw : List AmountRaw) : List (TransRaw × Nat) :=
  (tRaw.foldl (amexProxStep aRaw) (initUsed, [])).2

/-- Split-mode matching of `parseAmexFormat` (lines 277–337): sequential
alignment when both pools are non-empty and the counts differ by ≤ 2,
otherwise proximity fallback (also entered, with the sequentially-used
amounts, should the sequential loop produce nothing). -/
def amexMatchPairs (tRaw : List TransRaw) (aRaw : List AmountRaw) : List (TransRaw × Nat) :=
  if 0 < tRaw.length ∧ 0 < aRaw.length ∧
     ((tRaw.length : Int) - aRaw.length).natAbs ≤ 2 then
    let seq := amexSeqPairs tRaw aRaw
    if seq.isEmpty then amexProxPairs (seq.map Prod.snd) tRaw aRaw else seq
  else amexProxPairs [] tRaw aRaw

/-- Build the transaction of one matched pair. -/
def mkAmexTransaction (aRaw : List AmountRaw) (p : TransRaw × Nat) : Option Transaction :=
  (aRaw.get? p.2).map fun a =>
    createTransaction p.1.date p.1.description a.value (parseDate p.1.date)

/-- `parseAmexFormat(lines)`. -/
def parseAmexFormat (lines : List String) : List Transaction :=
  let pools := amexCollect lines
  if pools.directTransactions.isEmpty then
    (amexMatchPairs pools.transactionsRaw pools.amountsRaw).filterMap
      (mkAmexTransaction pools.amountsRaw)
  else
    pools.directTransactions.map fun dt =>
      createTransaction dt.date dt.description dt.value (parseDate dt.date)

/-! ## The other three format parsers and the dispatcher -/

/-- `^(\d{1,2})[\/\-](\d{1,2})[\/\-](\d{4})\s+(.+?)\s+([\$\£\€]?[\d,]+\.?\d{0,2})$`. -/
def parseStdLine (line : String) :
    Option (String × String × String × String × String) :=
  match parseSep1or2Digits isSlashDash line.toList with
  | none => none
  | some (day, r1) =>
    match parseSep1or2Digits isSlashDash r1 with
    | none => none
    | some (month, r2) =>
      match parse4Digits r2 with
      | none => none
      | some (year, r3) =>
        match lazySplitDescAmount r3 1 stdAmountFull with
        | none => none
        | some (desc, amtTail) => some (day, month, year, ⟨desc⟩, ⟨amtTail⟩)

/-- `parseStandardBankFormat(lines)`. -/
def parseStandardBankFormat (lines : List String) : List Transaction :=
  lines.filterMap fun line =>
    match parseStdLine line with
    | none => none
    | some (day, month, year, description, amountStr) =>
      if strIncludes (lowerStr description) "payment" ||
         strIncludes (lowerStr description) "credit" ||
         strIncludes (lowerStr description) "thank you" then none
      else
        match parseFloatLite (stripCurrencyCommas amountStr) with
        | none => none
        | some value =>
          if value ≤ 0 ∨ 50000 ≤ value then none
          else
            let dateStr := padStart2 day ++ "." ++ padStart2 month ++ "." ++ sliceLast2 year
            let date_iso := year ++ "-" ++ padStart2 month ++ "-" ++ padStart2 day
            some (createTransaction dateStr (trimStr description) value date_iso)

/-- `^(\d{1,2}[\/\-]\d{1,2}[\/\-]\d{4})\s{2,}(.+?)\s{2,}([\$\£\€]?[\d,]+\.?\d{0,2})$`
(the source keeps the whole date as one group and re-splits it on `[\/\-]`;
the parts are the same three components parsed here). -/
def parseTabLine (line : String) :
    Option (String × String × String × String × String) :=
  match parseSep1or2Digits isSlashDash line.toList with
  | none => none
  | some (day, r1) =>
    match parseSep1or2Digits isSlashDash r1 with
    | none => none
    | some (month, r2) =>
      match parse4Digits r2 with
      | none => none
      | some (year, r3) =>
        match lazySplitDescAmount r3 2 stdAmountFull with
        | none => none
        | some (desc, amtTail) => some (day, month, year, ⟨desc⟩, ⟨amtTail⟩)

/-- `parseTabularFormat(lines)`. -/
def parseTabularFormat (lines : List String) : List Transaction :=
  lines.filterMap fun line =>
    match parseTabLine line with
    | none => none
    | some (day, month, year, description, amountStr) =>
      if strIncludes (lowerStr description) "payment" ||
         strIncludes (lowerStr description) "credit" then none
      else
        match parseFloatLite (stripCurrencyCommas amountStr) with
        | none => none
        | some value =>
          if value ≤ 0 ∨ 50000 ≤ value then none
          else
            let date_iso := year ++ "-" ++ padStart2 month ++ "-" ++ padStart2 day
            let normalizedDate :=
              padStart2 day ++ "." ++ padStart2 month ++ "." ++ sliceLast2 year
            some (createTransaction normalizedDate (trimStr description) value date_iso)

def monthMap : List (String × String) := [
  ("jan", "01"), ("feb", "02"), ("mar", "03"), ("apr", "04"), ("may", "05"), ("jun", "06"),
  ("jul", "07"), ("aug", "08"), ("sep", "09"), ("oct", "10"), ("nov", "11"), ("dec", "12")]

/-- `monthMap[month.toLowerCase()] || month`. -/
def mapMonthName (month : String) : String :=
  match monthMap.find? (fun p => p.1 = lowerStr month) with
  | some p => p.2
  | none => month

/-- Shared tail of the NZ patterns: skip filters, bounds check, build.  The
in-pattern `continue` statements of the source skip to the *next pattern*,
which the caller's `<|>`-chain reproduces (a filtered-out match falls
through). -/
def nzBuild (day month year description amountStr : String) : Option Transaction :=
  if strIncludes (lowerStr description) "payment" ||
     strIncludes (lowerStr description) "credit" ||
     strIncludes (lowerStr description) "transfer in" then none
  else
    match parseFloatLite (stripCommas amountStr) with
    | none => none
    | some value =>
      if value ≤ 0 ∨ 50000 ≤ value then none
      else
        let date_iso := year ++ "-" ++ padStart2 month ++ "-" ++ padStart2 day
        let normalizedDate :=
          padStart2 day ++ "." ++ padStart2 month ++ "." ++ sliceLast2 year
        some (createTransaction normalizedDate (trimStr description) value date_iso)

/-- NZ pattern 1:
`^(\d{1,2})\s+([A-Za-z]{3})\s+(\d{4})\s+(.+?)\s+(NZ\$|[\$])?([\d,]+\.?\d{0,2})$`. -/
def nzPat1Tx (line : String) : Option Transaction :=
  match parseSep1or2Digits isWs line.toList with
  | none => none
  | some (day, r1) =>
    match dropWsL r1 with
    | a :: b :: c :: r2 =>
      if a.isAlpha && b.isAlpha && c.isAlpha then
        match wsPlusDrop r2 with
        | none => none
        | some r3 =>
          match parse4Digits r3 with
          | none => none
          | some (year, r4) =>
            match lazySplitDescAmount r4 1 nzAmountFull with
            | none => none
            | some (desc, amtTail) =>
              nzBuild day (mapMonthName ⟨[a, b, c]⟩) year ⟨desc⟩
                (nzStripCurrency ⟨amtTail⟩)
      else none
    | _ => none

/-- NZ pattern 2:
`^(\d{1,2})\/(\d{1,2})\/(\d{2})\s+(.+?)\s+(NZ\$|[\$])?([\d,]+\.?\d{0,2})$`
(two-digit year mapped to `20YY`). -/
def nzPat2Tx (line : String) : Option Transaction :=
  match parseSep1or2Digits (· = '/') line.toList with
  | none => none
  | some (day, r1) =>
    match parseSep1or2Digits (· = '/') r1 with
    | none => none
    | some (month, r2) =>
      match parse2D r2 with
      | none => none
      | some (year, r3) =>
        match lazySplitDescAmount r3 1 nzAmountFull with
        | none => none
        | some (desc, amtTail) =>
          nzBuild day month ("20" ++ year) ⟨desc⟩ (nzStripCurrency ⟨amtTail⟩)

/-- NZ pattern 3: `^(\d{4})-(\d{1,2})-(\d{1,2})\s+(.+?)\s+([\d,]+\.?\d{0,2})$`. -/
def nzPat3Tx (line : String) : Option Transaction :=
  match parse4Digits line.toList with
  | none => none
  | some (year, r1) =>
    match r1 with
    | '-' :: r2 =>
      match parseSep1or2Digits (· = '-') r2 with
      | none => none
      | some (month, r3) =>
        match parse1or2Digits r3 with
        | none => none
        | some (day, r4) =>
          match lazySplitDescAmount r4 1 looseAmountCore with
          | none => none
          | some (desc, amtTail) => nzBuild day month year ⟨desc⟩ ⟨amtTail⟩
    | _ => none

/-- `parseNZBankFormat(lines)`: three sub-patterns tried per line, first
producing a transaction wins. -/
def parseNZBankFormat (lines : List String) : List Transaction :=
  lines.filterMap fun line =>
    match nzPat1Tx line with
    | some t => some t
    | none =>
      match nzPat2Tx line with
      | some t => some t
      | none => nzPat3Tx line

/-- The line preparation of `extractTransactions`:
`text.split('\n').map(trim).filter(length > 0)`. -/
def prepLines (text : String) : List String :=
  ((strSplitOnChar '\n' text).map trimStr).filter (fun l => !l.isEmpty)

/-- The fixed parser order of `extractTransactions`. -/
def parserList : List (List String → List Transaction) :=
  [parseAmexFormat, parseStandardBankFormat, parseTabularFormat, parseNZBankFormat]

/-- The dispatcher loop: first parser with ≥ 1 transaction wins. -/
def tryParsers : List (List String → List Transaction) → List String → List Transaction
  | [], _ => []
  | p :: ps, lines =>
    let transactions := p lines
    if transactions.length > 0 then transactions else tryParsers ps lines

/-- `extractTransactions(text)`. -/
def extractTransactions (text : String) : List Transaction :=
  tryParsers parserList (prepLines text)

/-! ## Reconciliation — shared by `upload-pdf` `POST` and
`upload-json` `persistTransactions` -/

/-- The dedup key `` `${tx.date_iso}|${tx.place.trim().toLowerCase()}` ``. -/
def dedupKey (tx : Transaction) : String :=
  tx.date_iso ++ "|" ++ lowerStr (trimStr tx.place)

/-- Lookup in the JS `Map` built from the existing list (later entries with
the same key overwrite earlier ones). -/
def mapGet (existing : List Transaction) (k : String) : Option Transaction :=
  existing.foldl (fun acc tx => if dedupKey tx = k then some tx else acc) none

structure UpdateEntry where
  id : ℚ
  data : Transaction
deriving DecidableEq, Repr

/-- `{ ...existing, ...newTx }` for the pdf route, whose freshly built
transactions carry no `id` property, so the existing `id` survives the
spread. -/
def mergeForUpdate (existing newTx : Transaction) : Transaction :=
  { newTx with id := existing.id }

/-- Whether a submitted transaction passes the `filter` (is new). -/
def reconcileNewPred (existing : List Transaction) (newTx : Transaction) : Bool :=
  (mapGet existing (dedupKey newTx)).isNone

/-- The update queued (if any) while filtering a submitted transaction:
requires a key match, a value/category difference, and a defined
`existing.id`. -/
def reconcileUpdate (existing : List Transaction) (newTx : Transaction) :
    Option UpdateEntry :=
  match mapGet existing (dedupKey newTx) with
  | none => none
  | some ex =>
    if |ex.value - newTx.value| > 1 / 100 ∨ ex.category ≠ newTx.category ∨
       ex.subcategory ≠ newTx.subcategory then
      match ex.id with
      | some exId => some ⟨exId, mergeForUpdate ex newTx⟩
      | none => none
    else none

structure ReconcileResult where
  newTransactions : List Transaction
  updates : List UpdateEntry
  duplicateCount : Int
deriving DecidableEq, Repr

/-- The reconciliation pass (lines 661–696 of `upload-pdf/route.ts`; the
`existingMap` is fixed during the pass, so the filter-with-push loop is the
filter/filterMap pair). -/
def reconcile (transactions existing : List Transaction) : ReconcileResult :=
  let newTransactions := transactions.filter (reconcileNewPred existing)
  let updates := transactions.filterMap (reconcileUpdate existing)
  { newTransactions := newTransactions
    updates := updates
    duplicateCount :=
      (transactions.length : Int) - newTransactions.length - updates.length }

/-! ## Persistence flow of the `POST` handler (lines 647–769)

The external store is abstracted as three oracles for the HTTP calls; each
JS `fetch`+`!response.ok ⇒ throw` step is an `Except` value, and the
surrounding `try … catch (saveError)` is the final `match`. -/

structure Store where
  fetchExisting : Except String (List Transaction)
  patch : ℚ → Transaction → Except String Unit
  bulkInsert : List Transaction → Except String Unit

structure PersistSuccess where
  transactions : List Transaction
  count : Nat
  duplicateCount : Int
  updated : Nat
  saved : Bool
  message : Option String
deriving DecidableEq, Repr

/-- The sequential PATCH loop; the first failing update throws. -/
def patchAll (store : Store) : List UpdateEntry → Except String Unit
  | [] => .ok ()
  | u :: rest =>
    match store.patch u.id u.data with
    | .ok _ => patchAll store rest
    | .error e => .error e

/-- The body of the inner `try` block: fetch existing, reconcile, apply
updates, insert the new transactions (skipped entirely when none remain). -/
def runPersistence (store : Store) (transactions : List Transaction) :
    Except String PersistSuccess :=
  match store.fetchExisting with
  | .error _ => .error "Failed to fetch existing transactions"
  | .ok existingTransactions =>
    let r := reconcile transactions existingTransactions
    match patchAll store r.updates with
    | .error e => .error e
    | .ok _ =>
      if r.newTransactions.isEmpty then
        .ok { transactions := []
              count := 0
              duplicateCount := r.duplicateCount
              updated := r.updates.length
              saved := r.updates.length > 0
              message := some (if r.updates.length > 0 then
                  "Existing transactions updated."
                else "All transactions are duplicates. No new transactions to save.") }
      else
        match store.bulkInsert r.newTransactions with
        | .error e => .error e
        | .ok _ =>
          .ok { transactions := r.newTransactions
                count := r.newTransactions.length
                duplicateCount := r.duplicateCount
                updated := r.updates.length
                saved := true
                message := none }

structure UploadResponse where
  status : Nat
  success : Bool
  error : Option String
  transactions : List Transaction
  count : Nat
  duplicateCount : Option Int
  updated : Option Nat
  saved : Option Bool
  message : Option String
deriving DecidableEq, Repr

/-- The persistence phase of the pdf-upload `POST` handler: the `catch
(saveError)` branch (lines 759–769) answers HTTP 500 with the extracted
transactions and their count still in the body. -/
def uploadPdfPersistPhase (store : Store) (transactions : List Transaction) :
    UploadResponse :=
  match runPersistence store transactions with
  | .ok r =>
      { status := 200, success := true, error := none
        transactions := r.transactions, count := r.count
        duplicateCount := some r.duplicateCount, updated := some r.updated
        saved := some r.saved, message := r.message }
  | .error _ =>
      { status := 500, success := false
        error := some "Transactions extracted but failed to save to database"
        transactions := transactions, count := transactions.length
        duplicateCount := none, updated := none, saved := none, message := none }

/-! ## Bulk re-import normalization — `upload-json/route.ts` -/

/-- A JS value as the loose-typed incoming records see it: a finite number, a
non-finite number (`NaN`/`±Infinity`), a string, or anything else
(`undefined`, `null`, objects, …). -/
inductive JsVal where
  | vNum (q : ℚ)
  | vNaN
  | vStr (s : String)
  | vNone
deriving DecidableEq, Repr

def JsVal.asStr : JsVal → Option String
  | .vStr s => some s
  | _ => none

structure IncomingTransaction where
  id : JsVal := .vNone
  place : JsVal := .vNone
  amount : JsVal := .vNone
  date : JsVal := .vNone
  date_iso : JsVal := .vNone
  value : JsVal := .vNone
  currency : JsVal := .vNone
  category : JsVal := .vNone
  subcategory : JsVal := .vNone
  statement_id : JsVal := .vNone
  statement_start : JsVal := .vNone
  statement_end : JsVal := .vNone
deriving DecidableEq, Repr

/-- `^\d{4}-\d{2}-\d{2}$` (shape only — no calendar validation here). -/
def isoShapeTest (s : String) : Bool :=
  match s.toList with
  | [y1, y2, y3, y4, '-', m1, m2, '-', d1, d2] =>
      isDig y1 && isDig y2 && isDig y3 && isDig y4 &&
      isDig m1 && isDig m2 && isDig d1 && isDig d2
  | _ => false

/-- `^(\d{2})\/(\d{2})\/(\d{4})$` rearranged to ISO. -/
def slashDateTest (s : String) : Option String :=
  match s.toList with
  | [d1, d2, '/', m1, m2, '/', y1, y2, y3, y4] =>
      if isDig d1 && isDig d2 && isDig m1 && isDig m2 &&
         isDig y1 && isDig y2 && isDig y3 && isDig y4 then
        some (⟨[y1, y2, y3, y4]⟩ ++ "-" ++ ⟨[m1, m2]⟩ ++ "-" ++ ⟨[d1, d2]⟩)
      else none
  | _ => none

/-- `^(\d{2})\.(\d{2})\.(\d{2,4})$` rearranged to ISO (`20YY` for 2-digit
years). -/
def dotDateTest (s : String) : Option String :=
  match s.toList with
  | d1 :: d2 :: '.' :: m1 :: m2 :: '.' :: ys =>
      if isDig d1 && isDig d2 && isDig m1 && isDig m2 &&
         2 ≤ ys.length && ys.length ≤ 4 && ys.all isDig then
        let fullYear : String := if ys.length = 2 then "20" ++ ⟨ys⟩ else ⟨ys⟩
        some (fullYear ++ "-" ++ ⟨[m1, m2]⟩ ++ "-" ++ ⟨[d1, d2]⟩)
      else none
  | _ => none

/-- `parseDateIso(input)` of `upload-json/route.ts`.  The final fallback
`new Date(trimmed)` (the engine's kitchen-sink date parser) is abstracted as
the oracle `jsDateParse`, which yields the ISO date part of a successfully
parsed input and `none` for `Invalid Date`. -/
def parseDateIso (jsDateParse : String → Option String) (input : Option String) :
    Option String :=
  match input with
  | none => none
  | some s0 =>
    if s0 = "" then none
    else
      let trimmed := trimStr s0
      if isoShapeTest trimmed then some trimmed
      else
        match slashDateTest trimmed with
        | some r => some r
        | none =>
          match dotDateTest trimmed with
          | some r => some r
          | none => jsDateParse trimmed

/-- `s.replace(/[^0-9.-]/g, '')`. -/
def keepNumChars (s : String) : String :=
  ⟨s.toList.filter (fun c => isDig c || c = '.' || c = '-')⟩

/-- `parseValue(value, amount)`. -/
def parseValue (value amount : JsVal) : Option ℚ :=
  match value with
  | .vNum q => some q
  | _ =>
    let attempt : JsVal → Option ℚ := fun raw =>
      match raw with
      | .vStr s => parseFloatLite (keepNumChars s)
      | _ => none
    match attempt amount with
    | some a => some a
    | none => attempt value

/-- `Number(value.toFixed(2))`. -/
def toFixed2Q (q : ℚ) : ℚ := ((q * 100 + 1 / 2).floor : ℚ) / 100

/-- `normalizeTransaction(entry)` of `upload-json/route.ts`.  A numeric
`entry.id` becomes the stored id (a non-finite numeric id is collapsed to
`none`, unreachable for well-formed inputs). -/
def normalizeTransaction (jsDateParse : String → Option String)
    (entry : IncomingTransaction) : Option Transaction :=
  let place := match entry.place with
    | .vStr s => trimStr s
    | _ => ""
  let dateIso :=
    match parseDateIso jsDateParse entry.date_iso.asStr with
    | some d => some d
    | none => parseDateIso jsDateParse entry.date.asStr
  let value :=
    match parseValue entry.value entry.amount with
    | some v => some v
    | none =>
      match entry.value with
      | .vStr _ => parseValue entry.value .vNone
      | _ => none
  if place = "" then none
  else
  match dateIso, value with
  | some dIso, some v =>
    let classification := categorizeMerchant place
    let statementMetadata := computeStatementMetadata dIso
    let currency := match entry.currency with
      | .vStr s => if trimStr s ≠ "" then trimStr s else "NZ$"
      | _ => "NZ$"
    let amountDisplay := match entry.amount with
      | .vStr s => if trimStr s ≠ "" then trimStr s else currency ++ formatFixed2 v
      | _ => currency ++ formatFixed2 v
    let category := match entry.category with
      | .vStr s => if trimStr s ≠ "" then trimStr s else classification.category
      | _ => classification.category
    let subcategory := match entry.subcategory with
      | .vStr s => if trimStr s ≠ "" then trimStr s else classification.subcategory
      | _ => classification.subcategory
    some
      { id := match entry.id with
          | .vNum q => some q
          | _ => none
        place := place
        amount := amountDisplay
        date := match entry.date with
          | .vStr s => if trimStr s ≠ "" then trimStr s else dIso
          | _ => dIso
        currency := currency
        value := toFixed2Q v
        date_iso := dIso
        category := category
        subcategory := subcategory
        statement_id := match entry.statement_id with
          | .vStr s => if trimStr s ≠ "" then some s else statementMetadata.statement_id
          | _ => statementMetadata.statement_id
        statement_start := match entry.statement_start with
          | .vStr s => if trimStr s ≠ "" then some s else statementMetadata.statement_start
          | _ => statementMetadata.statement_start
        statement_end := match entry.statement_end with
          | .vStr s => if trimStr s ≠ "" then some s else statementMetadata.statement_end
          | _ => statementMetadata.statement_end }
  | _, _ => none

/-! ## Specification-side formulations

The following definitions restate, in the spec's words, the properties the
claims assert; the theorems below compare them with the source-derived
definitions above. -/

/-- 1-based ISO date rendering (`YYYY-MM-DD`). -/
def isoOfYMD (y : Int) (m1 d : Nat) : String :=
  isoYearStr y ++ "-" ++ pad2 m1 ++ "-" ++ pad2 d

/-- Claimed closing month: day ≤ 26 closes in the same month, a later day in
the next month, December rolling over into January of the next year. -/
def claimClosing (y : Int) (m d : Nat) : Int × Nat :=
  if d ≤ 26 then (y, m)
  else if m = 12 then (y + 1, 1) else (y, m + 1)

/-- Claimed opening month: the month preceding the closing month. -/
def claimOpening (cy : Int) (cm : Nat) : Int × Nat :=
  if cm = 1 then (cy - 1, 12) else (cy, cm - 1)

/-- Claimed statement metadata for a parsed date. -/
def claimStatementMeta (y : Int) (m d : Nat) : StatementMeta :=
  let c := claimClosing y m d
  let o := claimOpening c.1 c.2
  { statement_id := some (isoOfYMD c.1 c.2 26)
    statement_start := some (isoOfYMD o.1 o.2 27)
    statement_end := some (isoOfYMD c.1 c.2 26) }

/-- Spec wording of sequential alignment: align the two lists positionally,
starting the amounts from the offset of the first candidate within 30 lines
of the first transaction line whenever amounts outnumber transactions. -/
def seqAlignSpec (tRaw : List TransRaw) (aRaw : List AmountRaw) : List (TransRaw × Nat) :=
  let startOffset := amexStartOffset tRaw aRaw
  (tRaw.zip (aRaw.enum.drop startOffset)).map fun p => (p.1, p.2.1)

/-- Nearest candidate strictly within 5 lines after the transaction, over an
explicit pool of unused candidates. -/
def pickNearestAfter (tIdx : Nat) (pool : List (Nat × AmountRaw)) : Option (Nat × Int) :=
  pool.foldl (fun best p =>
    let diff : Int := (p.2.index : Int) - tIdx
    match best with
    | none => if 0 < diff ∧ diff ≤ 5 then some (p.1, diff) else none
    | some b => if 0 < diff ∧ diff ≤ 5 ∧ diff < b.2 then some (p.1, diff) else some b)
    none

/-- Nearest candidate strictly within 30 lines before the transaction. -/
def pickNearestBefore (tIdx : Nat) (pool : List (Nat × AmountRaw)) : Option (Nat × Int) :=
  pool.foldl (fun best p =>
    let diff : Int := (tIdx : Int) - p.2.index
    match best with
    | none => if 0 < diff ∧ diff ≤ 30 then some (p.1, diff) else none
    | some b => if 0 < diff ∧ diff ≤ 30 ∧ diff < b.2 then some (p.1, diff) else some b)
    none

/-- Spec wording of one proximity pick: within 5 lines after, then within 30
lines before, then the exact same line. -/
def proxPickSpec (tIdx : Nat) (pool : List (Nat × AmountRaw)) : Option Nat :=
  match pickNearestAfter tIdx pool with
  | some b => some b.1
  | none =>
    match pickNearestBefore tIdx pool with
    | some b => some b.1
    | none => pool.findSome? fun p => if p.2.index = tIdx then some p.1 else none

/-- Spec wording of the proximity fallback: each transaction line in order
draws from a pool of unused amount candidates; a consumed candidate is
removed from the pool. -/
def proximitySpec (pool : List (Nat × AmountRaw)) : List TransRaw → List (TransRaw × Nat)
  | [] => []
  | t :: ts =>
    match proxPickSpec t.index pool with
    | none => proximitySpec pool ts
    | some j => (t, j) :: proximitySpec (pool.filter fun p => p.1 ≠ j) ts

/-- The direct branch of the Amex collection loop, per line (it consults
neither the line index nor the neighbouring lines). -/
def amexDirectOfLine (line : String) : Option DirectRaw :=
  match parseAmexDirectLine line with
  | none => none
  | some (day, month, year, descriptionRaw, amountRaw) =>
    let dateStr := day ++ "." ++ month ++ "." ++ year
    if strIncludes descriptionRaw "PAYMENT - THANK YOU" ||
       strIncludes descriptionRaw "Total of New Transactions" then none
    else
      match parseFloatLite (stripCommas amountRaw) with
      | none => none
      | some value =>
          if value ≤ 0 ∨ 50000 ≤ value then none
          else some ⟨dateStr, trimStr descriptionRaw, value⟩

/-! ## Helper lemmas -/

theorem foldl_invariant {α β : Type _} (P : β → Prop) (f : β → α → β) (l : List α)
    (init : β) (h0 : P init) (hstep : ∀ b a, P b → P (f b a)) : P (l.foldl f init) := by
  induction l generalizing init with
  | nil => exact h0
  | cons a l ih => exact ih (f init a) (hstep init a h0)

theorem length_filter_add_filterMap_le {α β : Type _} (p : α → Bool) (f : α → Option β)
    (hpf : ∀ x, f x ≠ none → p x = false) (l : List α) :
    (l.filter p).length + (l.filterMap f).length ≤ l.length := by
  induction l with
  | nil => simp
  | cons a l ih =>
    rcases hfa : f a with _ | b
    · rcases hpa : p a with _ | _ <;>
        simp only [List.filter_cons, List.filterMap_cons, hfa, hpa, Bool.false_eq_true,
          if_false, if_true, List.length_cons] <;> omega
    · have hpa : p a = false := hpf a (by simp [hfa])
      simp only [List.filter_cons, List.filterMap_cons, hfa, hpa, Bool.false_eq_true,
        if_false, List.length_cons]
      omega

/-! ## C5 — reconciliation partition completeness -/

/-- C5: for every submitted list and every existing list,
`len(new) + len(updates) + duplicateCount = len(submitted)` (and the
duplicate count is non-negative, so the three parts partition the
submission). -/
theorem reconcile_partition_complete (transactions existing : List Transaction) :
    ((reconcile transactions existing).newTransactions.length : Int) +
        ((reconcile transactions existing).updates.length : Int) +
        (reconcile transactions existing).duplicateCount =
      (transactions.length : Int) ∧
    0 ≤ (reconcile transactions existing).duplicateCount := by
  constructor
  · simp only [reconcile]
    ring
  · simp only [reconcile]
    have h := length_filter_add_filterMap_le (reconcileNewPred existing)
      (reconcileUpdate existing) ?_ transactions
    · omega
    · intro x hx
      rcases hm : mapGet existing (dedupKey x) with _ | ex
      · exact absurd (by simp [reconcileUpdate, hm]) hx
      · simp [reconcileNewPred, hm]

/-! ## C8 — persistence failure keeps the extracted transactions -/

/-- C8: when any persistence step fails (fetch of existing transactions,
a PATCH, or the bulk insert — i.e. `runPersistence` errors), the handler
answers HTTP 500 with the already-extracted transactions and their count in
the body. -/
theorem persist_failure_returns_extracted (store : Store)
    (transactions : List Transaction) (e : String)
    (h : runPersistence store transactions = .error e) :
    uploadPdfPersistPhase store transactions =
      { status := 500, success := false
        error := some "Transactions extracted but failed to save to database"
        transactions := transactions, count := transactions.length
        duplicateCount := none, updated := none, saved := none, message := none } := by
  simp only [uploadPdfPersistPhase, h]

theorem persist_failure_returns_extracted_witness :
    uploadPdfPersistPhase
        ⟨.error "boom", fun _ _ => .ok (), fun _ => .ok ()⟩
        [createTransaction "01.01.25" "SHOP A" 10 "2025-01-01"] =
      { status := 500, success := false
        error := some "Transactions extracted but failed to save to database"
        transactions := [createTransaction "01.01.25" "SHOP A" 10 "2025-01-01"]
        count := 1
        duplicateCount := none, updated := none, saved := none, message := none } :=
  persist_failure_returns_extracted _ _ "Failed to fetch existing transactions" rfl

/-! ## C10 — key match on an id-less existing record with differing fields -/

/-- C10: a submitted transaction whose dedup key matches an existing record
that lacks an `id`, and that differs in value or category, is excluded from
`newTransactions`, queues no update, and raises `duplicateCount` by one. -/
theorem idless_changed_duplicate (tx ex : Transaction)
    (pre post existing : List Transaction)
    (hfound : mapGet existing (dedupKey tx) = some ex)
    (hid : ex.id = none)
    (hdiff : |ex.value - tx.value| > 1 / 100 ∨ ex.category ≠ tx.category ∨
      ex.subcategory ≠ tx.subcategory) :
    (reconcile (pre ++ tx :: post) existing).newTransactions =
        (reconcile (pre ++ post) existing).newTransactions ∧
    (reconcile (pre ++ tx :: post) existing).updates =
        (reconcile (pre ++ post) existing).updates ∧
    (reconcile (pre ++ tx :: post) existing).duplicateCount =
        (reconcile (pre ++ post) existing).duplicateCount + 1 := by
  have hpred : reconcileNewPred existing tx = false := by
    simp [reconcileNewPred, hfound]
  have hupd : reconcileUpdate existing tx = none := by
    simp only [reconcileUpdate, hfound]
    rw [if_pos hdiff, hid]
  have hnew : (reconcile (pre ++ tx :: post) existing).newTransactions =
      (reconcile (pre ++ post) existing).newTransactions := by
    simp [reconcile, List.filter_append, List.filter_cons, hpred]
  have hupds : (reconcile (pre ++ tx :: post) existing).updates =
      (reconcile (pre ++ post) existing).updates := by
    simp [reconcile, List.filterMap_append, List.filterMap_cons, hupd]
  refine ⟨hnew, hupds, ?_⟩
  have h1 : (reconcile (pre ++ tx :: post) existing).duplicateCount =
      ((pre ++ tx :: post).length : Int) -
        (reconcile (pre ++ tx :: post) existing).newTransactions.length -
        (reconcile (pre ++ tx :: post) existing).updates.length := rfl
  have h2 : (reconcile (pre ++ post) existing).duplicateCount =
      ((pre ++ post).length : Int) -
        (reconcile (pre ++ post) existing).newTransactions.length -
        (reconcile (pre ++ post) existing).updates.length := rfl
  rw [h1, h2, hnew, hupds]
  simp only [List.length_append, List.length_cons]
  push_cast
  ring

unseal Rat.add Rat.sub Rat.mul Rat.inv in
theorem idless_changed_duplicate_witness :
    (reconcile [createTransaction "01.01.25" "SHOP A" 20 "2025-01-01"]
        [createTransaction "01.01.25" "SHOP A" 10 "2025-01-01"]).newTransactions =
      (reconcile [] [createTransaction "01.01.25" "SHOP A" 10 "2025-01-01"]).newTransactions ∧
    (reconcile [createTransaction "01.01.25" "SHOP A" 20 "2025-01-01"]
        [createTransaction "01.01.25" "SHOP A" 10 "2025-01-01"]).updates =
      (reconcile [] [createTransaction "01.01.25" "SHOP A" 10 "2025-01-01"]).updates ∧
    (reconcile [createTransaction "01.01.25" "SHOP A" 20 "2025-01-01"]
        [createTransaction "01.01.25" "SHOP A" 10 "2025-01-01"]).duplicateCount =
      (reconcile [] [createTransaction "01.01.25" "SHOP A" 10 "2025-01-01"]).duplicateCount
        + 1 :=
  idless_changed_duplicate
    (createTransaction "01.01.25" "SHOP A" 20 "2025-01-01")
    (createTransaction "01.01.25" "SHOP A" 10 "2025-01-01")
    [] [] [createTransaction "01.01.25" "SHOP A" 10 "2025-01-01"]
    (by decide) (by decide) (.inl (by decide))

/-! ## C7 — invalid calendar dates are not rejected -/

unseal Rat.add Rat.sub Rat.mul Rat.inv in
/-- C7 counterexample: the Amex-format line dated `31.02.25` *does* yield a
transaction, carrying the non-calendar `date_iso` `2025-02-31` (which the
JS `Date` ISO parser rejects). -/
theorem invalid_date_transaction_produced :
    (extractTransactions "31 . 02 . 25 SHOP 12.34").map (fun t => t.date_iso) =
        ["2025-02-31"] ∧
    parseIsoDate "2025-02-31" = none := by
  exact ⟨by decide, by decide⟩

unseal Rat.add Rat.sub Rat.mul Rat.inv in
/-- C7 as amended: candidate dates are validated only syntactically, so a
transaction can carry a `date_iso` that is not a valid calendar date; the
only effect of an invalid date is all-null statement metadata
(`computeStatementMetadata` rejects it), as on the `31.02.25` example. -/
theorem invalid_date_only_nullifies_metadata :
    (∀ s, parseIsoDate s = none → computeStatementMetadata s = nullStatementMeta) ∧
    (extractTransactions "31 . 02 . 25 SHOP 12.34").map
        (fun t => (t.date_iso, t.statement_id, t.statement_start, t.statement_end)) =
      [("2025-02-31", none, none, none)] := by
  constructor
  · intro s h
    by_cases hs : s = ""
    · simp [computeStatementMetadata, hs]
    · simp [computeStatementMetadata, hs, h]
  · decide

theorem invalid_date_only_nullifies_metadata_witness :
    computeStatementMetadata "2025-02-31" = nullStatementMeta :=
  invalid_date_only_nullifies_metadata.1 "2025-02-31" rfl

/-! ## C1 — statement period boundary -/

theorem parseIsoDate_bounds {s : String} {y : Int} {m d : Nat}
    (h : parseIsoDate s = some ⟨y, m, d⟩) :
    1 ≤ m ∧ m ≤ 12 ∧ 1 ≤ d ∧ d ≤ daysInMonth y m := by
  unfold parseIsoDate at h
  split at h
  · split at h
    · simp only [] at h
      split at h
      · rename_i hcond
        simp only [Bool.and_eq_true, decide_eq_true_eq] at hcond
        obtain ⟨⟨⟨hm1, hm2⟩, hd1⟩, hd2⟩ := hcond
        cases h
        exact ⟨hm1, hm2, hd1, hd2⟩
      · exact absurd h (by simp)
    · exact absurd h (by simp)
  · exact absurd h (by simp)

theorem statementMetaOf_eq_claim (y : Int) (m d : Nat) (h1 : 1 ≤ m) (h2 : m ≤ 12) :
    statementMetaOf ⟨y, m, d⟩ = claimStatementMeta y m d := by
  by_cases hd : d ≤ 26
  · have hd2 : ¬ d > 26 := by omega
    interval_cases m <;>
      simp [statementMetaOf, claimStatementMeta, claimClosing, claimOpening,
        isoOfUTC, isoOfYMD, hd, hd2]
  · have hd2 : d > 26 := by omega
    interval_cases m <;>
      simp [statementMetaOf, claimStatementMeta, claimClosing, claimOpening,
        isoOfUTC, isoOfYMD, hd, hd2]

/-- C1: for every input string that the JS `Date` ISO parser accepts as a
valid calendar date `(y, m, d)`, the statement cycle closes on the 26th of
the same month when `d ≤ 26` and on the 26th of the next month otherwise
(December rolling the year over); `statement_start` is the 27th of the month
preceding the closing month, and `statement_id = statement_end`. -/
theorem statement_period_boundary (s : String) (y : Int) (m d : Nat)
    (h : parseIsoDate s = some ⟨y, m, d⟩) :
    computeStatementMetadata s = claimStatementMeta y m d := by
  obtain ⟨h1, h2, _, _⟩ := parseIsoDate_bounds h
  have hs : ¬ s = "" := by
    intro hs
    rw [hs] at h
    rw [show parseIsoDate "" = none from rfl] at h
    exact Option.noConfusion h
  simp only [computeStatementMetadata]
  rw [if_neg hs, h]
  exact statementMetaOf_eq_claim y m d h1 h2

theorem statement_period_boundary_witness :
    computeStatementMetadata "2025-09-26" =
        ⟨some "2025-09-26", some "2025-08-27", some "2025-09-26"⟩ ∧
    computeStatementMetadata "2025-09-27" =
        ⟨some "2025-10-26", some "2025-09-27", some "2025-10-26"⟩ ∧
    computeStatementMetadata "2025-12-30" =
        ⟨some "2026-01-26", some "2025-12-27", some "2026-01-26"⟩ :=
  ⟨(statement_period_boundary "2025-09-26" 2025 9 26 (by decide)).trans (by decide),
   (statement_period_boundary "2025-09-27" 2025 9 27 (by decide)).trans (by decide),
   (statement_period_boundary "2025-12-30" 2025 12 30 (by decide)).trans (by decide)⟩

/-! ## C6 — PayPal overrides yield to general rules on the full description -/

/-- C6 counterexample: `"PAYPAL *MIGHTY APE CAFE"` is paypal-prefixed and its
sub-merchant name contains the override entry for `"mighty ape"`
(Shopping / Retail & Home), yet `categorizeMerchant` returns the general
`cafe` rule's Dining / Cafes: general rules on the full description run
*before* the override table, not after. -/
theorem paypal_override_not_priority :
    strStartsWith (normalize "PAYPAL *MIGHTY APE CAFE") "paypal" = true ∧
    PAYPAL_OVERRIDES.find? (fun e =>
        strIncludes (collapse (normalize (stripPaypalPrefix "PAYPAL *MIGHTY APE CAFE")))
          (collapse e.matchStr)) =
      some ⟨"mighty ape", "Shopping", "Retail & Home"⟩ ∧
    categorizeMerchant "PAYPAL *MIGHTY APE CAFE" = ⟨"Dining", "Cafes"⟩ ∧
    (⟨"Dining", "Cafes"⟩ : Classification) ≠ ⟨"Shopping", "Retail & Home"⟩ := by
  refine ⟨by decide, by decide, by decide, by decide⟩

/-- C6 as amended: the general keyword rules are consulted on the full
description *first*; only when none of them matches does the PayPal branch
run, in which the override table takes priority (over re-running the rules
on the stripped name).  `"PAYPAL *MIGHTY APE"` yields (Shopping,
Retail & Home) — the override entry's pair, though via the general
`mighty ape` keyword. -/
theorem paypal_override_after_general_rules :
    (∀ (place : String) (o : PaypalOverride),
        matchRules (normalize place) (collapse (normalize place)) = none →
        strStartsWith (normalize place) "paypal" = true →
        PAYPAL_OVERRIDES.find? (fun e =>
            strIncludes (collapse (normalize (stripPaypalPrefix place)))
              (collapse e.matchStr)) = some o →
        categorizeMerchant place = ⟨o.category, o.subcategory⟩) ∧
    categorizeMerchant "PAYPAL *MIGHTY APE" = ⟨"Shopping", "Retail & Home"⟩ := by
  constructor
  · intro place o h1 h2 h3
    simp only [categorizeMerchant, h1, h2, h3, if_true]
  · decide

theorem paypal_override_after_general_rules_witness :
    categorizeMerchant "PAYPAL *LAUCOLLA" = ⟨"Other", "Counselling"⟩ :=
  paypal_override_after_general_rules.1 "PAYPAL *LAUCOLLA"
    ⟨"laucolla", "Other", "Counselling"⟩ (by decide) (by decide) (by decide)

/-! ## C4 — the dispatcher returns the first non-empty parser result -/

/-- C4: `extractTransactions` consults the four parsers in the fixed order
Amex, Standard-bank, Tabular, NZ-bank and returns exactly the first
non-empty result; four empty results give the empty list. -/
theorem dispatcher_first_parser_wins (text : String) :
    (parseAmexFormat (prepLines text) ≠ [] →
        extractTransactions text = parseAmexFormat (prepLines text)) ∧
    (parseAmexFormat (prepLines text) = [] →
      parseStandardBankFormat (prepLines text) ≠ [] →
        extractTransactions text = parseStandardBankFormat (prepLines text)) ∧
    (parseAmexFormat (prepLines text) = [] →
      parseStandardBankFormat (prepLines text) = [] →
      parseTabularFormat (prepLines text) ≠ [] →
        extractTransactions text = parseTabularFormat (prepLines text)) ∧
    (parseAmexFormat (prepLines text) = [] →
      parseStandardBankFormat (prepLines text) = [] →
      parseTabularFormat (prepLines text) = [] →
      parseNZBankFormat (prepLines text) ≠ [] →
        extractTransactions text = parseNZBankFormat (prepLines text)) ∧
    (parseAmexFormat (prepLines text) = [] →
      parseStandardBankFormat (prepLines text) = [] →
      parseTabularFormat (prepLines text) = [] →
      parseNZBankFormat (prepLines text) = [] →
        extractTransactions text = []) := by
  have hlp : ∀ l : List Transaction, l ≠ [] → l.length > 0 := by
    intro l hl
    exact List.length_pos.mpr hl
  have hlz : ∀ l : List Transaction, l = [] → ¬l.length > 0 := by
    intro l hl
    simp [hl]
  simp only [extractTransactions, parserList, tryParsers]
  refine ⟨?_, ?_, ?_, ?_, ?_⟩
  · intro h1
    rw [if_pos (hlp _ h1)]
  · intro h1 h2
    rw [if_neg (hlz _ h1), if_pos (hlp _ h2)]
  · intro h1 h2 h3
    rw [if_neg (hlz _ h1), if_neg (hlz _ h2), if_pos (hlp _ h3)]
  · intro h1 h2 h3 h4
    rw [if_neg (hlz _ h1), if_neg (hlz _ h2), if_neg (hlz _ h3), if_pos (hlp _ h4)]
  · intro h1 h2 h3 h4
    rw [if_neg (hlz _ h1), if_neg (hlz _ h2), if_neg (hlz _ h3), if_neg (hlz _ h4)]

unseal Rat.add Rat.sub Rat.mul Rat.inv in
theorem dispatcher_first_parser_wins_witness :
    extractTransactions "31 . 02 . 25 SHOP 12.34" =
      parseAmexFormat (prepLines "31 . 02 . 25 SHOP 12.34") :=
  (dispatcher_first_parser_wins "31 . 02 . 25 SHOP 12.34").1 (by decide)

/-! ## C2 — amount bounds: refuted by the bulk re-import normalization -/

/-- Bounds invariant for the Amex collection pools. -/
def amexPoolsOK (acc : AmexPools) : Prop :=
  (∀ dt ∈ acc.directTransactions, 0 < dt.value ∧ dt.value < 50000) ∧
  (∀ a ∈ acc.amountsRaw, 0 < a.value ∧ a.value < 50000)

theorem amexCollectStep_preserves (lines : List String) (minPay : Option ℚ)
    (acc : AmexPools) (i : Nat) (hP : amexPoolsOK acc) :
    amexPoolsOK (amexCollectStep lines minPay acc i) := by
  unfold amexCollectStep
  rcases hdl : parseAmexDirectLine (lines.getD i "") with _ | ⟨day, month, year, descRaw, amtRaw⟩
  · simp only [hdl]
    rcases htl : parseAmexTransLine (lines.getD i "") with _ | ⟨tday, tmonth, tyear, tdesc⟩
    · simp only [htl]
      by_cases hamt : amexAmountFull (lines.getD i "").toList
      · rw [if_pos hamt]
        by_cases h50 : i < 50
        · rw [if_pos h50]; exact hP
        · rw [if_neg h50]
          by_cases hcr : (strIncludes (lines.getD i "") "CR" ||
              strIncludes (lines.getD i "") "%" ||
              (if i + 1 < lines.length then lines.getD (i + 1) "" else "") = "CR") = true
          · rw [if_pos hcr]; exact hP
          · rw [if_neg hcr]
            by_cases hmp : (strIncludes (if 0 < i then lines.getD (i - 1) "" else "")
                  "Minimum Payment" ||
                strIncludes (if 0 < i then lines.getD (i - 1) "" else "") "Credit Limit" ||
                strIncludes (if 0 < i then lines.getD (i - 1) "" else "") "Due by" ||
                strIncludes (lines.getD i "") "Minimum Payment") = true
            · rw [if_pos hmp]; exact hP
            · rw [if_neg hmp]
              by_cases hmp2 : (strIncludes (if 1 < i then lines.getD (i - 2) "" else "")
                    "Minimum Payment" ||
                  strIncludes (if 2 < i then lines.getD (i - 3) "" else "")
                    "Minimum Payment") = true
              · rw [if_pos hmp2]; exact hP
              · rw [if_neg hmp2]
                rcases hpf : parseFloatLite (stripCommas (lines.getD i "")) with _ | value
                · simp only [hpf]; exact hP
                · simp only [hpf]
                  by_cases hbad : value ≤ 0 ∨ 50000 ≤ value
                  · rw [if_pos hbad]; exact hP
                  · rw [if_neg hbad]
                    push_neg at hbad
                    rcases minPay with _ | mp
                    · dsimp only
                      refine ⟨hP.1, fun a ha => ?_⟩
                      rcases List.mem_append.mp ha with h | h
                      · exact hP.2 a h
                      · rw [List.mem_singleton] at h
                        subst h
                        exact hbad
                    · dsimp only
                      by_cases hcl : |value - mp| < 1 / 100
                      · rw [if_pos hcl]; exact hP
                      · rw [if_neg hcl]
                        refine ⟨hP.1, fun a ha => ?_⟩
                        rcases List.mem_append.mp ha with h | h
                        · exact hP.2 a h
                        · rw [List.mem_singleton] at h
                          subst h
                          exact hbad
      · rw [if_neg hamt]; exact hP
    · simp only [htl]
      by_cases h50 : i < 50
      · rw [if_pos h50]; exact hP
      · rw [if_neg h50]
        by_cases hsk : (strIncludes tdesc "PAYMENT - THANK YOU" ||
            strIncludes tdesc "Total of New Transactions") = true
        · rw [if_pos hsk]; exact hP
        · rw [if_neg hsk]; exact hP
  · simp only [hdl]
    by_cases hsk : (strIncludes descRaw "PAYMENT - THANK YOU" ||
        strIncludes descRaw "Total of New Transactions") = true
    · rw [if_pos hsk]; exact hP
    · rw [if_neg hsk]
      rcases hpf : parseFloatLite (stripCommas amtRaw) with _ | value
      · simp only [hpf]; exact hP
      · simp only [hpf]
        by_cases hbad : value ≤ 0 ∨ 50000 ≤ value
        · rw [if_pos hbad]; exact hP
        · rw [if_neg hbad]
          push_neg at hbad
          refine ⟨fun dt hdt => ?_, hP.2⟩
          rcases List.mem_append.mp hdt with h | h
          · exact hP.1 dt h
          · rw [List.mem_singleton] at h
            subst h
            exact hbad

theorem amexCollect_ok (lines : List String) : amexPoolsOK (amexCollect lines) := by
  unfold amexCollect
  exact foldl_invariant amexPoolsOK _ _ _ ⟨by simp, by simp⟩
    (fun acc i h => amexCollectStep_preserves lines _ acc i h)

theorem parseAmexFormat_bounds (lines : List String) (t : Transaction)
    (ht : t ∈ parseAmexFormat lines) : 0 < t.value ∧ t.value < 50000 := by
  have hok := amexCollect_ok lines
  simp only [parseAmexFormat] at ht
  by_cases hde : (amexCollect lines).directTransactions.isEmpty
  · rw [if_pos hde] at ht
    obtain ⟨p, _, hmk⟩ := List.mem_filterMap.mp ht
    unfold mkAmexTransaction at hmk
    rcases hg : (amexCollect lines).amountsRaw.get? p.2 with _ | a <;> rw [hg] at hmk
    · exact Option.noConfusion hmk
    · injection hmk with hmk
      subst hmk
      exact hok.2 a (List.get?_mem hg)
  · rw [if_neg hde] at ht
    obtain ⟨dt, hdt, hmk⟩ := List.mem_map.mp ht
    subst hmk
    exact hok.1 dt hdt

theorem parseStandardBankFormat_bounds (lines : List String) (t : Transaction)
    (ht : t ∈ parseStandardBankFormat lines) : 0 < t.value ∧ t.value < 50000 := by
  obtain ⟨line, _, hf⟩ := List.mem_filterMap.mp ht
  try dsimp only at hf
  repeat' split at hf
  any_goals exact Option.noConfusion hf
  rename_i hbad
  push_neg at hbad
  injection hf with hf
  subst hf
  exact ⟨hbad.1, hbad.2⟩

theorem parseTabularFormat_bounds (lines : List String) (t : Transaction)
    (ht : t ∈ parseTabularFormat lines) : 0 < t.value ∧ t.value < 50000 := by
  obtain ⟨line, _, hf⟩ := List.mem_filterMap.mp ht
  try dsimp only at hf
  repeat' split at hf
  any_goals exact Option.noConfusion hf
  rename_i hbad
  push_neg at hbad
  injection hf with hf
  subst hf
  exact ⟨hbad.1, hbad.2⟩

theorem nzBuild_bounds (day month year description amountStr : String) (t : Transaction)
    (hf : nzBuild day month year description amountStr = some t) :
    0 < t.value ∧ t.value < 50000 := by
  unfold nzBuild at hf
  repeat' split at hf
  any_goals exact Option.noConfusion hf
  rename_i hbad
  push_neg at hbad
  injection hf with hf
  subst hf
  exact ⟨hbad.1, hbad.2⟩

theorem parseNZBankFormat_bounds (lines : List String) (t : Transaction)
    (ht : t ∈ parseNZBankFormat lines) : 0 < t.value ∧ t.value < 50000 := by
  obtain ⟨line, _, hf⟩ := List.mem_filterMap.mp ht
  try dsimp only at hf
  have h1 : ∀ s, nzPat1Tx s = some t → 0 < t.value ∧ t.value < 50000 := by
    intro s h
    unfold nzPat1Tx at h
    repeat' split at h
    any_goals exact Option.noConfusion h
    exact nzBuild_bounds _ _ _ _ _ _ h
  have h2 : ∀ s, nzPat2Tx s = some t → 0 < t.value ∧ t.value < 50000 := by
    intro s h
    unfold nzPat2Tx at h
    repeat' split at h
    any_goals exact Option.noConfusion h
    exact nzBuild_bounds _ _ _ _ _ _ h
  have h3 : ∀ s, nzPat3Tx s = some t → 0 < t.value ∧ t.value < 50000 := by
    intro s h
    unfold nzPat3Tx at h
    repeat' split at h
    any_goals exact Option.noConfusion h
    exact nzBuild_bounds _ _ _ _ _ _ h
  rcases hp1 : nzPat1Tx line with _ | t1 <;> rw [hp1] at hf
  · rcases hp2 : nzPat2Tx line with _ | t2 <;> rw [hp2] at hf
    · exact h3 line hf
    · injection hf with hf
      subst hf
      exact h2 line hp2
  · injection hf with hf
    subst hf
    exact h1 line hp1

/-- C2 as amended: every `Transaction` constructed by the four statement
format parsers (hence by `extractTransactions`) satisfies
`0 < value < 50000`; `normalizeTransaction` guarantees only a finite value
and enforces no bounds (see the counterexample below). -/
theorem parser_value_bounds (lines : List String) (text : String) (t : Transaction) :
    (t ∈ parseAmexFormat lines ∨ t ∈ parseStandardBankFormat lines ∨
      t ∈ parseTabularFormat lines ∨ t ∈ parseNZBankFormat lines →
        0 < t.value ∧ t.value < 50000) ∧
    (t ∈ extractTransactions text → 0 < t.value ∧ t.value < 50000) := by
  constructor
  · rintro (h | h | h | h)
    · exact parseAmexFormat_bounds lines t h
    · exact parseStandardBankFormat_bounds lines t h
    · exact parseTabularFormat_bounds lines t h
    · exact parseNZBankFormat_bounds lines t h
  · intro ht
    have : ∀ ps lines', (∀ p ∈ ps, ∀ u ∈ p lines', 0 < Transaction.value u ∧
        Transaction.value u < 50000) → t ∈ tryParsers ps lines' →
        0 < t.value ∧ t.value < 50000 := by
      intro ps
      induction ps with
      | nil => intro lines' _ h; exact absurd h (by simp [tryParsers])
      | cons p ps ih =>
        intro lines' hall h
        simp only [tryParsers] at h
        by_cases hl : (p lines').length > 0
        · rw [if_pos hl] at h
          exact hall p (by simp) t h
        · rw [if_neg hl] at h
          exact ih lines' (fun q hq => hall q (by simp [hq])) h
    refine this parserList (prepLines text) ?_ ht
    intro p hp u hu
    simp only [parserList, List.mem_cons, List.mem_singleton] at hp
    rcases hp with rfl | rfl | rfl | rfl | h
    · exact parseAmexFormat_bounds _ u hu
    · exact parseStandardBankFormat_bounds _ u hu
    · exact parseTabularFormat_bounds _ u hu
    · exact parseNZBankFormat_bounds _ u hu
    · exact absurd h (by simp)

unseal Rat.add Rat.sub Rat.mul Rat.inv in
theorem parser_value_bounds_witness :
    0 < ((617 : ℚ) / 50) ∧ ((617 : ℚ) / 50) < 50000 :=
  (parser_value_bounds [] "31 . 02 . 25 SHOP 12.34"
      (createTransaction "31.02.25" "SHOP" ((617 : ℚ) / 50) "2025-02-31")).2
    (by decide)

unseal Rat.add Rat.sub Rat.mul Rat.inv in
/-- C2 counterexample: `normalizeTransaction` bound-checks nothing — an
incoming record with the finite numeric value `-5` yields a constructed
`Transaction` whose `value` is `-5 ≤ 0` (the claim asserts
`0 < value < 50000` for every constructed transaction). -/
theorem normalize_accepts_nonpositive_value :
    (normalizeTransaction (fun _ => none)
        { place := .vStr "CORNER SHOP", date_iso := .vStr "2025-01-01",
          value := .vNum (-5) }).map (fun t => t.value) = some (-5) ∧
    ¬ (0 < (-5 : ℚ)) := by
  refine ⟨by decide, by decide⟩

/-! ## C9 — direct mode wins and ignores the line-50 cutoff -/

theorem amexCollectStep_directs (lines : List String) (minPay : Option ℚ)
    (acc : AmexPools) (i : Nat) :
    (amexCollectStep lines minPay acc i).directTransactions =
      acc.directTransactions ++ (amexDirectOfLine (lines.getD i "")).toList := by
  unfold amexCollectStep amexDirectOfLine
  rcases hdl : parseAmexDirectLine (lines.getD i "")
    with _ | ⟨day, month, year, descRaw, amtRaw⟩ <;> simp only [hdl]
  · repeat' split <;> try simp
  · simp only [Bool.or_eq_true]
    by_cases hsk : strIncludes descRaw "PAYMENT - THANK YOU" = true ∨
        strIncludes descRaw "Total of New Transactions" = true
    · simp [if_pos hsk]
    · simp only [if_neg hsk]
      rcases hpf : parseFloatLite (stripCommas amtRaw) with _ | value <;> simp only [hpf]
      · simp
      · by_cases hbad : value ≤ 0 ∨ 50000 ≤ value
        · simp [if_pos hbad]
        · simp [if_neg hbad]

theorem amexCollect_fold_directs (lines : List String) (minPay : Option ℚ) :
    ∀ (idxs : List Nat) (acc : AmexPools),
      ((idxs.foldl (amexCollectStep lines minPay) acc).directTransactions) =
        acc.directTransactions ++
          idxs.filterMap (fun i => amexDirectOfLine (lines.getD i "")) := by
  intro idxs
  induction idxs with
  | nil => intro acc; simp
  | cons i is ih =>
    intro acc
    rw [List.foldl_cons, ih, amexCollectStep_directs, List.filterMap_cons]
    rcases amexDirectOfLine (lines.getD i "") with _ | d <;> simp

theorem map_getD_range (l : List String) :
    (List.range l.length).map (fun i => l.getD i "") = l := by
  induction l with
  | nil => rfl
  | cons a l ih =>
    rw [List.length_cons, List.range_succ_eq_map, List.map_cons, List.map_map]
    refine congrArg₂ List.cons rfl ?_
    exact Eq.trans (List.map_congr_left fun i _ => rfl) ih

theorem amexCollectStep_ge50 (lines : List String) (minPay : Option ℚ)
    (acc : AmexPools) (i : Nat)
    (h : (∀ x ∈ acc.transactionsRaw, 50 ≤ x.index) ∧
      (∀ a ∈ acc.amountsRaw, 50 ≤ a.index)) :
    (∀ x ∈ (amexCollectStep lines minPay acc i).transactionsRaw, 50 ≤ x.index) ∧
    (∀ a ∈ (amexCollectStep lines minPay acc i).amountsRaw, 50 ≤ a.index) := by
  unfold amexCollectStep
  rcases hdl : parseAmexDirectLine (lines.getD i "")
    with _ | ⟨day, month, year, descRaw, amtRaw⟩ <;> simp only [hdl]
  · rcases htl : parseAmexTransLine (lines.getD i "")
      with _ | ⟨tday, tmonth, tyear, tdesc⟩ <;> simp only [htl]
    · by_cases hamt : amexAmountFull (lines.getD i "").toList
      · rw [if_pos hamt]
        by_cases h50 : i < 50
        · rw [if_pos h50]; exact h
        · rw [if_neg h50]
          have hpush : ∀ value : ℚ,
              (∀ x ∈ (⟨acc.directTransactions, acc.transactionsRaw,
                  acc.amountsRaw ++ [⟨value, i⟩]⟩ : AmexPools).transactionsRaw, 50 ≤ x.index) ∧
              (∀ a ∈ (⟨acc.directTransactions, acc.transactionsRaw,
                  acc.amountsRaw ++ [⟨value, i⟩]⟩ : AmexPools).amountsRaw, 50 ≤ a.index) := by
            intro value
            refine ⟨h.1, fun a ha => ?_⟩
            rcases List.mem_append.mp ha with hm | hm
            · exact h.2 a hm
            · rw [List.mem_singleton] at hm
              subst hm
              exact Nat.le_of_not_lt h50
          by_cases hcr : (strIncludes (lines.getD i "") "CR" ||
              strIncludes (lines.getD i "") "%" ||
              (if i + 1 < lines.length then lines.getD (i + 1) "" else "") = "CR") = true
          · rw [if_pos hcr]; exact h
          · rw [if_neg hcr]
            by_cases hmp : (strIncludes (if 0 < i then lines.getD (i - 1) "" else "")
                  "Minimum Payment" ||
                strIncludes (if 0 < i then lines.getD (i - 1) "" else "") "Credit Limit" ||
                strIncludes (if 0 < i then lines.getD (i - 1) "" else "") "Due by" ||
                strIncludes (lines.getD i "") "Minimum Payment") = true
            · rw [if_pos hmp]; exact h
            · rw [if_neg hmp]
              by_cases hmp2 : (strIncludes (if 1 < i then lines.getD (i - 2) "" else "")
                    "Minimum Payment" ||
                  strIncludes (if 2 < i then lines.getD (i - 3) "" else "")
                    "Minimum Payment") = true
              · rw [if_pos hmp2]; exact h
              · rw [if_neg hmp2]
                rcases hpf : parseFloatLite (stripCommas (lines.getD i "")) with _ | value
                · simp only [hpf]; exact h
                · simp only [hpf]
                  by_cases hbad : value ≤ 0 ∨ 50000 ≤ value
                  · rw [if_pos hbad]; exact h
                  · rw [if_neg hbad]
                    rcases minPay with _ | mp
                    · exact hpush value
                    · dsimp only
                      by_cases hcl : |value - mp| < 1 / 100
                      · rw [if_pos hcl]; exact h
                      · rw [if_neg hcl]; exact hpush value
      · rw [if_neg hamt]; exact h
    · by_cases h50 : i < 50
      · rw [if_pos h50]; exact h
      · rw [if_neg h50]
        by_cases hsk : (strIncludes tdesc "PAYMENT - THANK YOU" ||
            strIncludes tdesc "Total of New Transactions") = true
        · rw [if_pos hsk]; exact h
        · rw [if_neg hsk]
          refine ⟨fun x hx => ?_, h.2⟩
          rcases List.mem_append.mp hx with hm | hm
          · exact h.1 x hm
          · rw [List.mem_singleton] at hm
            subst hm
            exact Nat.le_of_not_lt h50
  · by_cases hsk : (strIncludes descRaw "PAYMENT - THANK YOU" ||
        strIncludes descRaw "Total of New Transactions") = true
    · rw [if_pos hsk]; exact h
    · rw [if_neg hsk]
      rcases hpf : parseFloatLite (stripCommas amtRaw) with _ | value
      · simp only [hpf]; exact h
      · simp only [hpf]
        by_cases hbad : value ≤ 0 ∨ 50000 ≤ value
        · rw [if_pos hbad]; exact h
        · rw [if_neg hbad]; exact ⟨h.1, h.2⟩

/-- C9: if any line anywhere in the document (the summary region before
line 50 included) yields a direct-mode transaction surviving the
payment/amount filters, `parseAmexFormat` returns exactly the direct-mode
transactions, discarding all split-mode pools; the line-50 summary exclusion
constrains only the split-mode transaction lines and standalone amounts
(their collected indices are all ≥ 50) and never direct-mode lines (the
direct pool is a per-line `filterMap` over the whole document, independent
of line position). -/
theorem direct_mode_priority (lines : List String) :
    (amexCollect lines).directTransactions = lines.filterMap amexDirectOfLine ∧
    ((amexCollect lines).directTransactions ≠ [] →
      parseAmexFormat lines = (amexCollect lines).directTransactions.map
        (fun dt => createTransaction dt.date dt.description dt.value (parseDate dt.date))) ∧
    (∀ x ∈ (amexCollect lines).transactionsRaw, 50 ≤ x.index) ∧
    (∀ a ∈ (amexCollect lines).amountsRaw, 50 ≤ a.index) := by
  refine ⟨?_, ?_, ?_⟩
  · unfold amexCollect
    rw [amexCollect_fold_directs]
    conv_rhs => rw [← map_getD_range lines]
    rw [List.filterMap_map]
    simp only [Function.comp_def, List.nil_append]
  · intro hne
    simp only [parseAmexFormat]
    rw [if_neg (by simpa [List.isEmpty_iff] using hne)]
  · unfold amexCollect
    refine foldl_invariant
      (fun acc => (∀ x ∈ acc.transactionsRaw, 50 ≤ x.index) ∧
        (∀ a ∈ acc.amountsRaw, 50 ≤ a.index))
      _ _ _ ?_ (fun acc i hP => amexCollectStep_ge50 lines _ acc i hP)
    exact ⟨fun x hx => absurd hx (List.not_mem_nil x),
      fun a ha => absurd ha (List.not_mem_nil a)⟩

unseal Rat.add Rat.sub Rat.mul Rat.inv in
theorem direct_mode_priority_witness :
    parseAmexFormat ["01 . 02 . 25 SHOP 12.34"] =
      (amexCollect ["01 . 02 . 25 SHOP 12.34"]).directTransactions.map
        (fun dt => createTransaction dt.date dt.description dt.value (parseDate dt.date)) :=
  (direct_mode_priority ["01 . 02 . 25 SHOP 12.34"]).2.1 (by decide)

/-! ## C3 — the split-mode matching strategy -/

theorem range_filterMap_if {β : Type _} (g : Nat → β) (L : Nat) :
    ∀ n, (List.range n).filterMap (fun i => if i < L then some (g i) else none) =
      (List.range (min n L)).map g := by
  intro n
  induction n with
  | zero => simp
  | succ n ih =>
    rw [List.range_succ, List.filterMap_append, ih]
    by_cases hn : n < L
    · have h1 : min (n + 1) L = n + 1 := by omega
      have h2 : min n L = n := by omega
      rw [h1, h2, List.range_succ, List.map_append]
      simp [hn]
    · have h1 : min (n + 1) L = min n L := by omega
      rw [h1]
      simp [hn]

/-- Default elements for `getD`-based indexing. -/
def dfltTransRaw : TransRaw := ⟨"", "", 0⟩

theorem amexSeqPairs_canonical (tRaw : List TransRaw) (aRaw : List AmountRaw) (off : Nat) :
    (List.range (min tRaw.length aRaw.length)).filterMap (fun i =>
        if off + i < aRaw.length then (tRaw.get? i).map fun t => (t, off + i) else none) =
      (List.range (min tRaw.length (aRaw.length - off))).map
        (fun i => (tRaw.getD i dfltTransRaw, off + i)) := by
  have hcongr : (List.range (min tRaw.length aRaw.length)).filterMap (fun i =>
        if off + i < aRaw.length then (tRaw.get? i).map fun t => (t, off + i) else none) =
      (List.range (min tRaw.length aRaw.length)).filterMap (fun i =>
        if i < aRaw.length - off then
          some (tRaw.getD i dfltTransRaw, off + i) else none) := by
    refine List.filterMap_congr fun i hi => ?_
    rw [List.mem_range] at hi
    by_cases hio : off + i < aRaw.length
    · rw [if_pos hio, if_pos (by omega)]
      rw [List.get?_eq_getElem?, List.getElem?_eq_getElem (by omega),
        List.getD_eq_getElem _ _ (by omega)]
      rfl
    · rw [if_neg hio, if_neg (by omega)]
  rw [hcongr, range_filterMap_if, min_assoc, min_eq_right (Nat.sub_le _ _)]

theorem seqAlignSpec_canonical (tRaw : List TransRaw) (aRaw : List AmountRaw) (off : Nat) :
    (tRaw.zip (aRaw.enum.drop off)).map (fun p => (p.1, p.2.1)) =
      (List.range (min tRaw.length (aRaw.length - off))).map
        (fun i => (tRaw.getD i dfltTransRaw, off + i)) := by
  apply List.ext_getElem?
  intro n
  rw [List.getElem?_map, List.getElem?_map, List.zip_eq_zipWith, List.getElem?_zipWith,
    List.getElem?_drop, List.getElem?_enum]
  by_cases hn : n < min tRaw.length (aRaw.length - off)
  · obtain ⟨ht, ha'⟩ := Nat.lt_min.mp hn
    rw [List.getElem?_range hn, List.getElem?_eq_getElem ht,
      List.getElem?_eq_getElem (show off + n < aRaw.length by omega)]
    simp [List.getD_eq_getElem _ _ ht, List.getElem?_eq_getElem ht]
  · have hrange : (List.range (min tRaw.length (aRaw.length - off))).length ≤ n := by
      rw [List.length_range]
      exact Nat.le_of_not_lt hn
    rw [List.getElem?_eq_none hrange]
    by_cases ht : n < tRaw.length
    · have ha : aRaw.length ≤ off + n := by
        by_contra hc
        exact hn (Nat.lt_min.mpr ⟨ht, by omega⟩)
      rw [List.getElem?_eq_getElem ht, List.getElem?_eq_none ha]
      simp
    · rw [List.getElem?_eq_none (Nat.le_of_not_lt ht)]
      simp

theorem amexSeqPairs_eq_spec (tRaw : List TransRaw) (aRaw : List AmountRaw) :
    amexSeqPairs tRaw aRaw = seqAlignSpec tRaw aRaw := by
  unfold amexSeqPairs seqAlignSpec
  rw [amexSeqPairs_canonical, seqAlignSpec_canonical]

theorem foldl_skip_filter {α β : Type _} (cP : α → Prop) [DecidablePred cP]
    (g : β → α → β) (l : List α) (init : β) :
    l.foldl (fun b x => if cP x then b else g b x) init =
      (l.filter fun x => decide ¬ cP x).foldl g init := by
  induction l generalizing init with
  | nil => rfl
  | cons x l ih => by_cases hc : cP x <;> simp [List.filter_cons, hc, ih]

theorem findSome?_skip_filter {α γ : Type _} (cP qP : α → Prop)
    [DecidablePred cP] [DecidablePred qP] (h : α → γ) (l : List α) :
    (l.findSome? fun x => if ¬ cP x ∧ qP x then some (h x) else none) =
      (l.filter fun x => decide ¬ cP x).findSome? fun x =>
        if qP x then some (h x) else none := by
  induction l with
  | nil => rfl
  | cons x l ih =>
    by_cases hc : cP x
    · simp [List.findSome?_cons, List.filter_cons, hc, ih]
    · by_cases hq : qP x
      · simp [List.findSome?_cons, List.filter_cons, hc, hq]
      · simp [List.findSome?_cons, List.filter_cons, hc, hq, ih]

theorem fcaPass1_eq (tIdx : Nat) (a : List AmountRaw) (used : List Nat) :
    fcaPass1 tIdx a used =
      pickNearestAfter tIdx (a.enum.filter fun p => decide ¬ p.1 ∈ used) := by
  unfold fcaPass1 pickNearestAfter
  exact foldl_skip_filter (fun p : Nat × AmountRaw => p.1 ∈ used) _ _ _

theorem fcaPass2_eq (tIdx : Nat) (a : List AmountRaw) (used : List Nat) :
    fcaPass2 tIdx a used =
      pickNearestBefore tIdx (a.enum.filter fun p => decide ¬ p.1 ∈ used) := by
  unfold fcaPass2 pickNearestBefore
  exact foldl_skip_filter (fun p : Nat × AmountRaw => p.1 ∈ used) _ _ _

theorem fcaPass3_eq (tIdx : Nat) (a : List AmountRaw) (used : List Nat) :
    fcaPass3 tIdx a used =
      (a.enum.filter fun p => decide ¬ p.1 ∈ used).findSome? fun p =>
        if p.2.index = tIdx then some p.1 else none := by
  unfold fcaPass3
  exact findSome?_skip_filter (fun p : Nat × AmountRaw => p.1 ∈ used)
    (fun p : Nat × AmountRaw => p.2.index = tIdx) (fun p : Nat × AmountRaw => p.1) _

theorem findClosestAmount_eq (tIdx : Nat) (a : List AmountRaw) (used : List Nat) :
    findClosestAmount tIdx a used =
      proxPickSpec tIdx (a.enum.filter fun p => decide ¬ p.1 ∈ used) := by
  unfold findClosestAmount proxPickSpec
  rw [fcaPass1_eq, fcaPass2_eq, fcaPass3_eq]

theorem proximitySpec_cons_none (pool : List (Nat × AmountRaw)) (t : TransRaw)
    (ts : List TransRaw) (h : proxPickSpec t.index pool = none) :
    proximitySpec pool (t :: ts) = proximitySpec pool ts := by
  simp only [proximitySpec]
  rw [h]

theorem proximitySpec_cons_some (pool : List (Nat × AmountRaw)) (t : TransRaw)
    (ts : List TransRaw) (j : Nat) (h : proxPickSpec t.index pool = some j) :
    proximitySpec pool (t :: ts) =
      (t, j) :: proximitySpec (pool.filter fun p => p.1 ≠ j) ts := by
  simp only [proximitySpec]
  rw [h]

theorem proxPool_filter (a : List AmountRaw) (used : List Nat) (j : Nat) :
    ((a.enum.filter fun p => decide ¬ p.1 ∈ used).filter fun p => p.1 ≠ j) =
      a.enum.filter fun p => decide ¬ p.1 ∈ (j :: used) := by
  rw [List.filter_filter]
  refine List.filter_congr fun p _ => ?_
  simp only [List.mem_cons, not_or, decide_not, Bool.decide_and, Bool.not_and,
    Bool.not_not]

theorem amexProx_fold_eq (a : List AmountRaw) (t : List TransRaw) :
    ∀ (used : List Nat) (acc : List (TransRaw × Nat)),
      (t.foldl (amexProxStep a) (used, acc)).2 =
        acc ++ proximitySpec (a.enum.filter fun p => decide ¬ p.1 ∈ used) t := by
  induction t with
  | nil => intro used acc; simp [proximitySpec]
  | cons tr t ih =>
    intro used acc
    rw [List.foldl_cons]
    rcases hfc : findClosestAmount tr.index a used with _ | j
    · have hstep : amexProxStep a (used, acc) tr = (used, acc) := by
        unfold amexProxStep; rw [hfc]
      have hpick : proxPickSpec tr.index
          (a.enum.filter fun p => decide ¬ p.1 ∈ used) = none := by
        rw [← findClosestAmount_eq]; exact hfc
      rw [hstep, ih used acc, proximitySpec_cons_none _ _ _ hpick]
    · have hstep : amexProxStep a (used, acc) tr = (j :: used, acc ++ [(tr, j)]) := by
        unfold amexProxStep; rw [hfc]
      have hpick : proxPickSpec tr.index
          (a.enum.filter fun p => decide ¬ p.1 ∈ used) = some j := by
        rw [← findClosestAmount_eq]; exact hfc
      rw [hstep, ih (j :: used) (acc ++ [(tr, j)]),
        proximitySpec_cons_some _ _ _ _ hpick, proxPool_filter]
      simp

theorem amexProxPairs_eq_spec (tRaw : List TransRaw) (aRaw : List AmountRaw) :
    amexProxPairs [] tRaw aRaw = proximitySpec aRaw.enum tRaw := by
  unfold amexProxPairs
  rw [amexProx_fold_eq]
  simp

theorem fcaPass1_not_used (tIdx : Nat) (a : List AmountRaw) (used : List Nat) :
    ∀ j d, fcaPass1 tIdx a used = some (j, d) → j ∉ used := by
  unfold fcaPass1
  refine foldl_invariant (fun best => ∀ j d, best = some (j, d) → j ∉ used) _ _ _
    (fun j d h => Option.noConfusion h) ?_
  intro b p hb j d hj
  by_cases hmem : p.1 ∈ used
  · rw [if_pos hmem] at hj
    exact hb j d hj
  · rw [if_neg hmem] at hj
    simp only [] at hj
    split at hj
    · split at hj
      · simp only [Option.some.injEq, Prod.mk.injEq] at hj
        obtain ⟨hj1, -⟩ := hj
        subst hj1
        exact hmem
      · exact Option.noConfusion hj
    · split at hj
      · simp only [Option.some.injEq, Prod.mk.injEq] at hj
        obtain ⟨hj1, -⟩ := hj
        subst hj1
        exact hmem
      · exact hb j d hj

theorem fcaPass2_not_used (tIdx : Nat) (a : List AmountRaw) (used : List Nat) :
    ∀ j d, fcaPass2 tIdx a used = some (j, d) → j ∉ used := by
  unfold fcaPass2
  refine foldl_invariant (fun best => ∀ j d, best = some (j, d) → j ∉ used) _ _ _
    (fun j d h => Option.noConfusion h) ?_
  intro b p hb j d hj
  by_cases hmem : p.1 ∈ used
  · rw [if_pos hmem] at hj
    exact hb j d hj
  · rw [if_neg hmem] at hj
    simp only [] at hj
    split at hj
    · split at hj
      · simp only [Option.some.injEq, Prod.mk.injEq] at hj
        obtain ⟨hj1, -⟩ := hj
        subst hj1
        exact hmem
      · exact Option.noConfusion hj
    · split at hj
      · simp only [Option.some.injEq, Prod.mk.injEq] at hj
        obtain ⟨hj1, -⟩ := hj
        subst hj1
        exact hmem
      · exact hb j d hj

theorem fcaPass3_not_used (tIdx : Nat) (a : List AmountRaw) (used : List Nat)
    (j : Nat) (h : fcaPass3 tIdx a used = some j) : j ∉ used := by
  unfold fcaPass3 at h
  obtain ⟨p, hmem, hp⟩ := List.exists_of_findSome?_eq_some h
  split at hp
  · rename_i hcond
    simp only [Option.some.injEq] at hp
    subst hp
    exact hcond.1
  · exact Option.noConfusion hp

theorem findClosestAmount_not_used (tIdx : Nat) (a : List AmountRaw) (used : List Nat)
    (j : Nat) (h : findClosestAmount tIdx a used = some j) : j ∉ used := by
  unfold findClosestAmount at h
  split at h
  · rename_i b hb
    simp only [Option.some.injEq] at h
    subst h
    exact fcaPass1_not_used tIdx a used b.1 b.2 hb
  · split at h
    · rename_i b hb
      simp only [Option.some.injEq] at h
      subst h
      exact fcaPass2_not_used tIdx a used b.1 b.2 hb
    · exact fcaPass3_not_used tIdx a used j h

theorem amexProx_nodup (a : List AmountRaw) (t : List TransRaw) :
    ∀ (used : List Nat) (acc : List (TransRaw × Nat)),
      (acc.map Prod.snd).Nodup → (∀ x ∈ acc.map Prod.snd, x ∈ used) →
      (((t.foldl (amexProxStep a) (used, acc)).2).map Prod.snd).Nodup := by
  induction t with
  | nil =>
    intro used acc hnd _
    exact hnd
  | cons tr t ih =>
    intro used acc hnd hsub
    rw [List.foldl_cons]
    rcases hfc : findClosestAmount tr.index a used with _ | j
    · have hstep : amexProxStep a (used, acc) tr = (used, acc) := by
        unfold amexProxStep; rw [hfc]
      rw [hstep]
      exact ih used acc hnd hsub
    · have hstep : amexProxStep a (used, acc) tr = (j :: used, acc ++ [(tr, j)]) := by
        unfold amexProxStep; rw [hfc]
      rw [hstep]
      have hjnot : j ∉ used := findClosestAmount_not_used tr.index a used j hfc
      refine ih (j :: used) (acc ++ [(tr, j)]) ?_ ?_
      · simp only [List.map_append, List.map_cons, List.map_nil]
        refine List.Nodup.append hnd (List.nodup_singleton j) ?_
        intro x hx hx'
        rw [List.mem_singleton] at hx'
        subst hx'
        exact hjnot (hsub x hx)
      · intro x hx
        simp only [List.map_append, List.map_cons, List.map_nil, List.mem_append,
          List.mem_singleton] at hx
        rcases hx with hx | rfl
        · exact List.mem_cons_of_mem j (hsub x hx)
        · exact List.mem_cons_self x used

theorem amexProxPairs_snd_nodup (initUsed : List Nat) (tRaw : List TransRaw)
    (aRaw : List AmountRaw) :
    ((amexProxPairs initUsed tRaw aRaw).map Prod.snd).Nodup := by
  unfold amexProxPairs
  exact amexProx_nodup aRaw tRaw initUsed [] (by simp) (by simp)

theorem amexSeqPairs_snd_nodup (tRaw : List TransRaw) (aRaw : List AmountRaw) :
    ((amexSeqPairs tRaw aRaw).map Prod.snd).Nodup := by
  unfold amexSeqPairs
  rw [amexSeqPairs_canonical, List.map_map]
  exact List.Nodup.map (fun i j h => Nat.add_left_cancel h) (List.nodup_range _)

theorem firstAmountWithin30_lt (i : Nat) (aRaw : List AmountRaw)
    (ha : 0 < aRaw.length) : firstAmountWithin30 i aRaw < aRaw.length := by
  unfold firstAmountWithin30
  rcases hf : aRaw.findIdx? (fun a => decide (((a.index : Int) - i).natAbs ≤ 30))
    with _ | k
  · rw [hf]
    simpa using ha
  · rw [hf]
    rw [List.findIdx?_eq_some_iff_getElem] at hf
    obtain ⟨hk, -⟩ := hf
    simpa using hk

theorem amexStartOffset_lt (tRaw : List TransRaw) (aRaw : List AmountRaw)
    (ha : 0 < aRaw.length) : amexStartOffset tRaw aRaw < aRaw.length := by
  unfold amexStartOffset
  split
  · cases tRaw with
    | nil => exact ha
    | cons t0 tl => exact firstAmountWithin30_lt t0.index aRaw ha
  · exact ha

theorem amexSeqPairs_ne_nil (tRaw : List TransRaw) (aRaw : List AmountRaw)
    (ht : 0 < tRaw.length) (ha : 0 < aRaw.length) : amexSeqPairs tRaw aRaw ≠ [] := by
  unfold amexSeqPairs
  rw [amexSeqPairs_canonical]
  have hoff := amexStartOffset_lt tRaw aRaw ha
  intro hnil
  have hlen := congrArg List.length hnil
  rw [List.length_map, List.length_range, List.length_nil] at hlen
  have hpos : 0 < min tRaw.length (aRaw.length - amexStartOffset tRaw aRaw) :=
    Nat.lt_min.mpr ⟨ht, by omega⟩
  omega

/-- C3: in the Amex parser's split mode the matching strategy is chosen by
the count difference: when both pools are non-empty and the counts differ by
at most 2, the result is exactly the positional (sequential) alignment of
transaction lines with amount candidates, the amounts starting from the
offset of the first candidate within 30 lines of the first transaction line
whenever amounts outnumber transactions; otherwise the result is the
proximity fallback, in which each transaction line in order draws the
nearest unused candidate within 5 lines after it, then within 30 lines
before it, then on the exact same line. In either case each amount
candidate is consumed by at most one transaction. -/
theorem amex_split_matching_strategy (tRaw : List TransRaw) (aRaw : List AmountRaw) :
    (0 < tRaw.length ∧ 0 < aRaw.length ∧
        ((tRaw.length : Int) - aRaw.length).natAbs ≤ 2 →
      amexMatchPairs tRaw aRaw = seqAlignSpec tRaw aRaw) ∧
    (¬ (0 < tRaw.length ∧ 0 < aRaw.length ∧
        ((tRaw.length : Int) - aRaw.length).natAbs ≤ 2) →
      amexMatchPairs tRaw aRaw = proximitySpec aRaw.enum tRaw) ∧
    ((amexMatchPairs tRaw aRaw).map Prod.snd).Nodup := by
  refine ⟨?_, ?_, ?_⟩
  · intro h
    unfold amexMatchPairs
    rw [if_pos h]
    have hne := amexSeqPairs_ne_nil tRaw aRaw h.1 h.2.1
    have hfalse : (amexSeqPairs tRaw aRaw).isEmpty = false :=
      Bool.eq_false_iff.mpr fun hc => hne (List.isEmpty_iff.mp hc)
    rw [if_neg (show ¬((amexSeqPairs tRaw aRaw).isEmpty = true) from by
      rw [hfalse]; exact Bool.false_ne_true)]
    exact amexSeqPairs_eq_spec tRaw aRaw
  · intro h
    unfold amexMatchPairs
    rw [if_neg h]
    exact amexProxPairs_eq_spec tRaw aRaw
  · unfold amexMatchPairs
    split
    · simp only []
      split
      · exact amexProxPairs_snd_nodup _ _ _
      · exact amexSeqPairs_snd_nodup tRaw aRaw
    · exact amexProxPairs_snd_nodup _ _ _

theorem amex_split_matching_strategy_witness :
    (0 < ([⟨"01.01.25", "SHOP A", 3⟩] : List TransRaw).length ∧
      0 < ([⟨62, 5⟩] : List AmountRaw).length ∧
      ((([⟨"01.01.25", "SHOP A", 3⟩] : List TransRaw).length : Int) -
        ([⟨62, 5⟩] : List AmountRaw).length).natAbs ≤ 2) ∧
    amexMatchPairs [⟨"01.01.25", "SHOP A", 3⟩] [⟨62, 5⟩] =
      seqAlignSpec [⟨"01.01.25", "SHOP A", 3⟩] [⟨62, 5⟩] ∧
    ¬ (0 < ([⟨"01.01.25", "SHOP A", 3⟩] : List TransRaw).length ∧
      0 < ([] : List AmountRaw).length ∧
      ((([⟨"01.01.25", "SHOP A", 3⟩] : List TransRaw).length : Int) -
        ([] : List AmountRaw).length).natAbs ≤ 2) ∧
    amexMatchPairs [⟨"01.01.25", "SHOP A", 3⟩] ([] : List AmountRaw) =
      proximitySpec ([] : List AmountRaw).enum [⟨"01.01.25", "SHOP A", 3⟩] :=
  ⟨by decide,
   (amex_split_matching_strategy [⟨"01.01.25", "SHOP A", 3⟩] [⟨62, 5⟩]).1 (by decide),
   by decide,
   (amex_split_matching_strategy [⟨"01.01.25", "SHOP A", 3⟩]
     ([] : List AmountRaw)).2.1 (by decide)⟩

end TransactionsDashboard
